import Mathlib

/-!
# Facette library: collection synthesis and filtering

A shallow embedding of `src/src/facette/library/collection.go`
(`Library.FilterCollection` and `Library.GetCollectionTemplate`) together with
theorems about the two operations.

Conventions of the embedding:

* a Go `string` is a Lean `String` (text is taken to be valid UTF-8, on which
  byte-wise and code-point-wise comparison and substring search agree);
* a Go `map[string]V` is a `GoMap V`: the list of its key/value pairs in the
  order in which one `range` statement enumerates them.  Go leaves that order
  unspecified, so the order is part of the input of the model;
* pointers stored in maps and slices are taken to be non-nil; a lookup that
  misses yields the nil pointer, and dereferencing it is the outcome
  `Outcome.panic`;
* the `int` counter is a `Nat` (it counts emitted entries and cannot reach
  `2^63` on a real machine).
-/

namespace Facette

/-! ## Go maps -/

/-- A Go `map[string]V`, as the list of its bindings in enumeration order. -/
structure GoMap (V : Type) where
  entries : List (String × V)
  deriving DecidableEq

namespace GoMap

variable {V : Type}

/-- The freshly made map `make(map[string]V)`. -/
def empty : GoMap V := ⟨[]⟩

/-- The keys in the order a `range` statement yields them. -/
def keys (m : GoMap V) : List String := m.entries.map Prod.fst

/-- The comma-ok lookup `v, ok := m[k]`. -/
def get? (m : GoMap V) (k : String) : Option V := m.entries.lookup k

/-- Replacement of the binding of `k` inside a binding list, appending when `k` is new. -/
def setEntry (k : String) (v : V) : List (String × V) → List (String × V)
  | [] => [(k, v)]
  | p :: rest => if p.1 = k then (k, v) :: rest else p :: setEntry k v rest

/-- The assignment `m[k] = v`. -/
def set (m : GoMap V) (k : String) (v : V) : GoMap V := ⟨setEntry k v m.entries⟩

/-- A Go map binds every key at most once. -/
def WF (m : GoMap V) : Prop := m.keys.Nodup

instance (m : GoMap V) : Decidable m.WF := by
  unfold WF
  infer_instance

end GoMap

/-- The plain index expression `m[k]` on a `map[string]string`: the zero value `""` when `k` is unbound. -/
def GoMap.index (m : GoMap String) (k : String) : String := (m.get? k).getD ""

/-! ## Library functions used by the code -/

/-- Go `strings.Contains` on character lists: some suffix of the text starts with the pattern. -/
def containsChars : List Char → List Char → Bool
  | [], sub => sub.isEmpty
  | c :: s, sub => sub.isPrefixOf (c :: s) || containsChars s sub

/-- Go `strings.Contains(s, substr)`. -/
def Contains (s substr : String) : Bool := containsChars s.data substr.data

/-- Replacement of the first occurrence of `old` in a character list by `new`. -/
def replaceFirstChars (old new : List Char) : List Char → List Char
  | [] => if old.isEmpty then new else []
  | c :: s => if old.isPrefixOf (c :: s) then new ++ (c :: s).drop old.length
              else c :: replaceFirstChars old new s

/-- Go `strings.Replace(s, old, new, 1)`: only the first occurrence is replaced. -/
def Replace1 (s old new : String) : String := ⟨replaceFirstChars old.data new.data s.data⟩

/-- Go `a <= b` on strings: the lexicographic order, computed on the character lists. -/
def strLE (a b : String) : Prop := a.data ≤ b.data

instance : DecidableRel strLE := fun a b => by
  unfold strLE
  infer_instance

/-- Go `sort.Strings`: the ascending rearrangement of a slice of strings. -/
def sortStrings (l : List String) : List String := l.insertionSort strLE

/-- Go `fmt.Sprintf("unnamed%d", count)`. -/
def sprintfUnnamed (count : Nat) : String := "unnamed" ++ Nat.repr count

/-- Modelled from the spec: `utils.Clone(src, &dst)` is not among the sources; the spec has it
clone the template's default option set into the fresh map, so the destination holds exactly the
bindings of the source. -/
def Clone (src : GoMap String) : GoMap String := ⟨src.entries⟩

/-- The `goset.Set` of strings (third-party package): its members, without repetition. -/
structure GoSet where
  items : List String

/-- The call `goset.New()`. -/
def GoSet.New : GoSet := ⟨[]⟩

/-- The call `set.Add(x)`: a member already present is not added again. -/
def GoSet.Add (s : GoSet) (x : String) : GoSet := if x ∈ s.items then s else ⟨s.items ++ [x]⟩

/-- The call `set.StringSlice()`: the members in some order.  The only caller sorts the slice at
once, and sorting yields the same slice for every order of the members (`sortStrings_perm`). -/
def GoSet.StringSlice (s : GoSet) : List String := s.items

/-! ## Data model -/

/-- CollectionEntry represents a Collection entry structure. -/
structure CollectionEntry where
  ID : String
  Options : GoMap String
  deriving DecidableEq

/-- Modelled from the spec: the embedded `Item` struct is declared outside the sources; the spec
names its `Name` and its identity as the metadata a collection carries. -/
structure Item where
  ID : String
  Name : String
  deriving DecidableEq

/-- Collection represents a Collection entry in a Library.  `Parent` and `Children` hold pointers,
modelled as the addresses they store. -/
structure Collection where
  Item : Item
  Entries : List CollectionEntry
  Parent : Option Nat
  Children : List Nat
  deriving DecidableEq

/-- Modelled from the spec: a catalog source (declared outside the sources) owns metrics keyed by
metric name; only the names matter here. -/
structure Source where
  Metrics : GoMap Unit
  deriving DecidableEq

/-- Modelled from the spec: a catalog origin (declared outside the sources) owns sources keyed by
source name. -/
structure Origin where
  Sources : GoMap Source
  deriving DecidableEq

/-- Modelled from the spec: the catalog (declared outside the sources) maps origin names to
origins. -/
structure Catalog where
  Origins : GoMap Origin
  deriving DecidableEq

/-- A compiled `*regexp.Regexp`, through the one method the code calls: `FindStringSubmatch`,
which yields the empty slice when the text does not match and otherwise the whole match followed
by one string per capture group. -/
structure Regexp where
  FindStringSubmatch : String → List String

/-- Modelled from the spec: `config.TemplateConfig` (declared outside the sources) has a split
pattern (empty when absent), the compiled matcher (nil when none was compiled) and the default
option set (nil when none was configured). -/
structure TemplateConfig where
  SplitPattern : String
  SplitRegexp : Option Regexp
  Options : Option (GoMap String)

/-- Modelled from the spec: the per-origin configuration (declared outside the sources) maps
template names to templates. -/
structure OriginConfig where
  Templates : GoMap TemplateConfig

/-- Modelled from the spec: the configuration (declared outside the sources) maps origin names to
their configuration. -/
structure Config where
  Origins : GoMap OriginConfig

/-- The receiver of both operations, through the two fields the code reads. -/
structure Library where
  Catalog : Catalog
  Config : Config

/-- The only error value the code returns: `os.ErrNotExist`. -/
inductive GoError where
  | ErrNotExist
  deriving DecidableEq

/-- How a call ends: by a run-time panic (a nil pointer was dereferenced) or by returning. -/
inductive Outcome (α : Type) where
  | panic : Outcome α
  | returned : α → Outcome α
  deriving DecidableEq

/-! ## FilterCollection -/

/-- The test of lines 42-46: the entry is kept when it has a `title` option whose lower-cased
value contains the lower-cased filter.  `toLower` stands for Go `strings.ToLower`. -/
def keepEntry (toLower : String → String) (filter : String) (entry : CollectionEntry) : Bool :=
  match entry.Options.get? "title" with
  | none => false
  | some _ => Contains (toLower (entry.Options.index "title")) (toLower filter)

/-- The loop of lines 41-49: the kept entries are appended to the entries gathered so far. -/
def filterLoop (toLower : String → String) (filter : String) :
    List CollectionEntry → List CollectionEntry → List CollectionEntry
  | [], acc => acc
  | entry :: rest, acc =>
    if keepEntry toLower filter entry then filterLoop toLower filter rest (acc ++ [entry])
    else filterLoop toLower filter rest acc

/-- FilterCollection filters collection entries by graphs titles.  The result `none` is the nil
pointer; `toLower` stands for Go `strings.ToLower`. -/
def FilterCollection (toLower : String → String) (collection : Collection) (filter : String) :
    Option Collection :=
  if filter = "" then none
  else
    let collectionTemp : Collection := { collection with Entries := [] }
    some { collectionTemp with Entries := filterLoop toLower filter collection.Entries collectionTemp.Entries }

/-! ## GetCollectionTemplate -/

/-- Lines 102-106 and 125-129: a fresh map that receives a clone of the template options, if any. -/
def freshOptions (template : TemplateConfig) : GoMap String :=
  match template.Options with
  | none => GoMap.empty
  | some o => Clone o

/-- Lines 102-120: the entry emitted for one split item. -/
def splitEntry (originName name templateName : String) (template : TemplateConfig)
    (itemName : String) (count : Nat) : CollectionEntry :=
  let options := freshOptions template
  let options := options.set "origin" originName
  let options := options.set "source" name
  let options := options.set "template" templateName
  let options := options.set "filter" itemName
  let options :=
    if options.index "title" ≠ "" then options.set "title" (Replace1 (options.index "title") "%s" itemName)
    else options
  { ID := sprintfUnnamed count, Options := options }

/-- Lines 125-138: the entry emitted for a template without split pattern. -/
def plainEntry (originName name templateName : String) (template : TemplateConfig)
    (count : Nat) : CollectionEntry :=
  let options := freshOptions template
  let options := options.set "origin" originName
  let options := options.set "source" name
  let options := options.set "template" templateName
  { ID := sprintfUnnamed count, Options := options }

/-- The loop of lines 101-123 over the sorted split items, on the pair of the entries emitted so
far and the counter. -/
def splitLoop (originName name templateName : String) (template : TemplateConfig) :
    List String → List CollectionEntry × Nat → List CollectionEntry × Nat
  | [], st => st
  | itemName :: rest, st =>
    splitLoop originName name templateName template rest
      (st.1 ++ [splitEntry originName name templateName template itemName st.2], st.2 + 1)

/-- The loop of lines 90-96 over the metric names of the source: a name whose submatch slice has
exactly two elements adds the second one to the set.  Calling the matcher through a nil
`SplitRegexp` panics. -/
def scanMetrics (re : Option Regexp) : List String → GoSet → Outcome GoSet
  | [], splitSet => .returned splitSet
  | metricName :: rest, splitSet =>
    match re with
    | none => .panic
    | some r =>
      match r.FindStringSubmatch metricName with
      | [_, chunk] => scanMetrics re rest (splitSet.Add chunk)
      | _ => scanMetrics re rest splitSet

/-- The metric names of `library.Catalog.Origins[originName].Sources[name].Metrics` (line 90) in
enumeration order; a missing origin or source is a nil pointer. -/
def metricNames (library : Library) (originName name : String) : Outcome (List String) :=
  match library.Catalog.Origins.get? originName with
  | none => .panic
  | some origin =>
    match origin.Sources.get? name with
    | none => .panic
    | some source => .returned source.Metrics.keys

/-- Lines 85-141: the body of the loop over template names. -/
def processTemplate (library : Library) (originName name templateName : String)
    (st : List CollectionEntry × Nat) : Outcome (List CollectionEntry × Nat) :=
  match library.Config.Origins.get? originName with
  | none => .panic
  | some originConfig =>
    match originConfig.Templates.get? templateName with
    | none => .panic
    | some template =>
      if template.SplitPattern ≠ "" then
        match metricNames library originName name with
        | .panic => .panic
        | .returned metrics =>
          match scanMetrics template.SplitRegexp metrics GoSet.New with
          | .panic => .panic
          | .returned splitSet =>
            .returned (splitLoop originName name templateName template
              (sortStrings splitSet.StringSlice) st)
      else
        .returned (st.1 ++ [plainEntry originName name templateName template st.2], st.2 + 1)

/-- The loop of lines 84-142 over the template names. -/
def templateLoop (library : Library) (originName name : String) :
    List String → List CollectionEntry × Nat → Outcome (List CollectionEntry × Nat)
  | [], st => .returned st
  | templateName :: rest, st =>
    match processTemplate library originName name templateName st with
    | .panic => .panic
    | .returned st' => templateLoop library originName name rest st'

/-- The variables of `GetCollectionTemplate` that live across iterations of the loop over the
origins: the slice `templates` (declared once, before the loop), the entries of `collection`,
`count` and `found`. -/
structure SynthState where
  templates : List String
  Entries : List CollectionEntry
  count : Nat
  found : Bool

/-- Lines 71-142: the body of the loop over the origins of the catalog. -/
def processOrigin (library : Library) (name : String) (originName : String) (origin : Origin)
    (st : SynthState) : Outcome SynthState :=
  match origin.Sources.get? name with
  | none => .returned st
  | some _ =>
    match library.Config.Origins.get? originName with
    | none => .panic
    | some originConfig =>
      let templates := sortStrings (st.templates ++ originConfig.Templates.keys)
      match templateLoop library originName name templates (st.Entries, st.count) with
      | .panic => .panic
      | .returned r =>
        .returned { templates := templates, Entries := r.1, count := r.2, found := true }

/-- The loop of lines 70-143 over `library.Catalog.Origins`, in enumeration order. -/
def originLoop (library : Library) (name : String) :
    List (String × Origin) → SynthState → Outcome SynthState
  | [], st => .returned st
  | o :: rest, st =>
    match processOrigin library name o.1 o.2 st with
    | .panic => .panic
    | .returned st' => originLoop library name rest st'

/-- GetCollectionTemplate generates a Collection based on origins templates.  It returns the pair
of a collection pointer (`none` is nil) and an error (`none` is nil). -/
def GetCollectionTemplate (library : Library) (name : String) :
    Outcome (Option Collection × Option GoError) :=
  match originLoop library name library.Catalog.Origins.entries
      { templates := [], Entries := [], count := 0, found := false } with
  | .panic => .panic
  | .returned st =>
    if st.found then
      .returned (some { Item := { ID := "", Name := name }, Entries := st.Entries,
                        Parent := none, Children := [] }, none)
    else .returned (none, some GoError.ErrNotExist)


/-! ## Auxiliary definitions for the statements -/

/-- The value of a decimal digit character. -/
def digitValue (c : Char) : Nat := c.toNat - 48

/-- The number a list of decimal digits denotes. -/
def decimalValue (l : List Char) : Nat := l.foldl (fun acc c => 10 * acc + digitValue c) 0

/-- The filter criterion in the words of the specification: the options contain a `title` key and
the lower-cased title contains the lower-cased filter string as a substring. -/
def TitleMatches (toLower : String → String) (filter : String) (entry : CollectionEntry) : Prop :=
  ∃ title, entry.Options.get? "title" = some title ∧
    (toLower filter).data <:+: (toLower title).data

instance (toLower : String → String) (filter : String) (entry : CollectionEntry) :
    Decidable (TitleMatches toLower filter entry) :=
  match h : entry.Options.get? "title" with
  | none => isFalse (by rintro ⟨t, ht, _⟩; rw [h] at ht; cases ht)
  | some title =>
    if hc : (toLower filter).data <:+: (toLower title).data then isTrue ⟨title, h, hc⟩
    else isFalse (by rintro ⟨t, ht, hi⟩; rw [h] at ht; cases ht; exact hc hi)

/-- An ASCII instance of `strings.ToLower`, for evaluating the model on examples. -/
def asciiLower (s : String) : String := ⟨s.data.map Char.toLower⟩

/-- An example collection: two titled entries and one without title. -/
def sampleCollection : Collection :=
  { Item := { ID := "", Name := "host1" },
    Entries := [⟨"unnamed0", ⟨[("title", "My CPU Graph"), ("origin", "o1")]⟩⟩,
                ⟨"unnamed1", ⟨[("origin", "o1")]⟩⟩,
                ⟨"unnamed2", ⟨[("title", "Memory")]⟩⟩],
    Parent := none, Children := [] }

/-- The entries that one pass of the loop body over the template names (lines 85-141) appends for
the template `templateName` of the origin `originName`: one plain entry, or one split entry per
sorted split item. -/
def TemplateEmits (library : Library) (originName name templateName : String)
    (new : List CollectionEntry) : Prop :=
  ∃ originConfig template,
    library.Config.Origins.get? originName = some originConfig ∧
    originConfig.Templates.get? templateName = some template ∧
    ((template.SplitPattern = "" ∧
        ∃ count, new = [plainEntry originName name templateName template count]) ∨
     (template.SplitPattern ≠ "" ∧ ∃ metrics splitSet,
        metricNames library originName name = .returned metrics ∧
        scanMetrics template.SplitRegexp metrics GoSet.New = .returned splitSet ∧
        List.Forall₂
          (fun itemName e =>
            ∃ count, e = splitEntry originName name templateName template itemName count)
          (sortStrings splitSet.StringSlice) new))

/-- The entry was appended while the origin loop processed an origin of the catalog that has the
source, for one of the template names visited there. -/
def Emitted (library : Library) (name : String) (e : CollectionEntry) : Prop :=
  ∃ o ∈ library.Catalog.Origins.entries, o.2.Sources.get? name ≠ none ∧
    ∃ templateName new, TemplateEmits library o.1 name templateName new ∧ e ∈ new

/-- The origin has a source called `name` (the test of line 71). -/
def hasSource (name : String) (o : String × Origin) : Bool := (o.2.Sources.get? name).isSome

/-- The state in which the origin loop starts (lines 56-68). -/
def initialState : SynthState := { templates := [], Entries := [], count := 0, found := false }

/-- The precondition on the collaborators: every origin of the catalog has an entry in the
template registry, and every template with a split pattern has a compiled matcher. -/
def Consistent (library : Library) : Prop :=
  (∀ o ∈ library.Catalog.Origins.entries, (library.Config.Origins.get? o.1).isSome = true) ∧
  (∀ oc ∈ library.Config.Origins.entries, ∀ t ∈ oc.2.Templates.entries,
      t.2.SplitPattern ≠ "" → t.2.SplitRegexp.isSome = true)

instance (library : Library) : Decidable (Consistent library) := by
  unfold Consistent
  infer_instance

/-- A matcher for metric names of the shape `cpu.<d>.<c>` with one capture group, the character
`<d>`; an example instance of a compiled split pattern. -/
def digitRegexp : Regexp :=
  ⟨fun s => match s.data with
    | ['c', 'p', 'u', '.', d, '.', _] => [s, String.mk [d]]
    | _ => []⟩

/-- An example catalog: origin `o1` has the source `host1` with three metrics. -/
def sampleCatalog : Catalog :=
  ⟨⟨[("o1", ⟨⟨[("host1", ⟨⟨[("cpu.0.u", ()), ("cpu.1.u", ()), ("cpu.0.s", ())]⟩⟩)]⟩⟩)]⟩⟩

/-- An example library: origin `o1` has a plain template `t0` and a split template `t1`. -/
def sampleLibrary : Library :=
  { Catalog := sampleCatalog,
    Config := ⟨⟨[("o1", ⟨⟨[("t1", ⟨"cpu", some digitRegexp, some ⟨[("title", "CPU %s")]⟩⟩),
                           ("t0", ⟨"", none, some ⟨[("title", "Host")]⟩⟩)]⟩⟩)]⟩⟩ }

/-- An example library whose template registry is empty although the catalog has an origin. -/
def unconfiguredLibrary : Library :=
  { Catalog := sampleCatalog, Config := ⟨⟨[]⟩⟩ }

/-- The counter invariant of the loops: the IDs of the entries emitted so far are
`unnamed0`, `unnamed1`, ... up to the counter. -/
def IDsOK (st : List CollectionEntry × Nat) : Prop :=
  st.1.map (fun e => e.ID) = (List.range st.2).map sprintfUnnamed

/-- What an entry shows of its provenance: its ID and its `origin` and `template` options. -/
def entrySummary (e : CollectionEntry) : String × String × String :=
  (e.ID, e.Options.index "origin", e.Options.index "template")

/-- The entry summaries of a returned collection; `none` when the call panicked or returned no
collection. -/
def resultSummary (r : Outcome (Option Collection × Option GoError)) :
    Option (List (String × String × String)) :=
  match r with
  | .returned (some c, _) => some (c.Entries.map entrySummary)
  | _ => none

/-- A source without metrics. -/
def emptySource : Source := ⟨⟨[]⟩⟩

/-- A template without split pattern, matcher or options. -/
def plainTemplate : TemplateConfig := ⟨"", none, none⟩

/-- An example catalog in which the two origins `o1` and `o2` both have the source `host1`,
enumerated `o1` first. -/
def twoOriginCatalog : Catalog :=
  ⟨⟨[("o1", ⟨⟨[("host1", emptySource)]⟩⟩), ("o2", ⟨⟨[("host1", emptySource)]⟩⟩)]⟩⟩

/-- The same catalog as `twoOriginCatalog`, enumerated `o2` first. -/
def twoOriginCatalogSwapped : Catalog :=
  ⟨⟨[("o2", ⟨⟨[("host1", emptySource)]⟩⟩), ("o1", ⟨⟨[("host1", emptySource)]⟩⟩)]⟩⟩

/-- A registry in which each of `o1` and `o2` has one plain template called `t1`. -/
def sharedNameConfig : Config :=
  ⟨⟨[("o1", ⟨⟨[("t1", plainTemplate)]⟩⟩), ("o2", ⟨⟨[("t1", plainTemplate)]⟩⟩)]⟩⟩

/-- A registry in which `o1` has the plain template `a` and `o2` the plain template `b`. -/
def distinctNameConfig : Config :=
  ⟨⟨[("o1", ⟨⟨[("a", plainTemplate)]⟩⟩), ("o2", ⟨⟨[("b", plainTemplate)]⟩⟩)]⟩⟩

/-- The default option set of a template: empty when none is configured. -/
def defaultOptions (template : TemplateConfig) : GoMap String :=
  match template.Options with
  | none => GoMap.empty
  | some o => o

/-- The options of a split entry in the words of the specification, as a lookup: the defaults
overridden with `origin`, `source`, `template` and `filter`, the title (if any) with its first
`%s` replaced by the captured value, every other key as in the defaults. -/
def splitOptionsSpec (defaults : GoMap String) (originName name templateName value : String)
    (key : String) : Option String :=
  if key = "origin" then some originName
  else if key = "source" then some name
  else if key = "template" then some templateName
  else if key = "filter" then some value
  else if key = "title" then (defaults.get? "title").map (fun title => Replace1 title "%s" value)
  else defaults.get? key

/-- The options of an entry of a template without split pattern in the words of the
specification, as a lookup: the defaults overridden with `origin`, `source` and `template`. -/
def plainOptionsSpec (defaults : GoMap String) (originName name templateName : String)
    (key : String) : Option String :=
  if key = "origin" then some originName
  else if key = "source" then some name
  else if key = "template" then some templateName
  else defaults.get? key

/-- The first entry the call on `sampleLibrary` returns for `host1`: the plain template `t0`. -/
def sampleEntry0 : CollectionEntry :=
  ⟨"unnamed0", ⟨[("title", "Host"), ("origin", "o1"), ("source", "host1"), ("template", "t0")]⟩⟩

/-- The second entry: the split template `t1` at the captured value `0`. -/
def sampleEntry1 : CollectionEntry :=
  ⟨"unnamed1", ⟨[("title", "CPU 0"), ("origin", "o1"), ("source", "host1"), ("template", "t1"),
    ("filter", "0")]⟩⟩

/-- The third entry: the split template `t1` at the captured value `1`. -/
def sampleEntry2 : CollectionEntry :=
  ⟨"unnamed2", ⟨[("title", "CPU 1"), ("origin", "o1"), ("source", "host1"), ("template", "t1"),
    ("filter", "1")]⟩⟩

/-- The collection the call on `sampleLibrary` returns for `host1`. -/
def sampleResult : Collection :=
  { Item := { ID := "", Name := "host1" },
    Entries := [sampleEntry0, sampleEntry1, sampleEntry2],
    Parent := none, Children := [] }

/-- The (template, filter) pair read off an entry's options. -/
def templateFilter (e : CollectionEntry) : String × String :=
  (e.Options.index "template", e.Options.index "filter")

/-- The lexicographic order on (template, filter) pairs: template name first, then filter. -/
def pairLE (p q : String × String) : Prop := p.1 < q.1 ∨ (p.1 = q.1 ∧ p.2 ≤ q.2)

/-- An example library whose only template has a split pattern but no compiled matcher. -/
def uncompiledLibrary : Library :=
  { Catalog := sampleCatalog,
    Config := ⟨⟨[("o1", ⟨⟨[("t1", ⟨"cpu", none, none⟩)]⟩⟩)]⟩⟩ }

/-- The metric name contributes the value to the split set, in the words of the specification:
the submatch slice of the matcher on it has exactly two elements (the whole match and one capture
group) and the value is the second one. -/
def Contributes (r : Regexp) (metricName value : String) : Prop :=
  (r.FindStringSubmatch metricName).length = 2 ∧
    (r.FindStringSubmatch metricName)[1]? = some value

/-- An example library whose split template has a default title with two placeholders. -/
def doubleTitleLibrary : Library :=
  { Catalog := sampleCatalog,
    Config := ⟨⟨[("o1", ⟨⟨[("t1", ⟨"cpu", some digitRegexp,
      some ⟨[("title", "CPU %s of %s")]⟩⟩)]⟩⟩)]⟩⟩ }

/-- The first entry the call on `doubleTitleLibrary` returns for `host1`. -/
def doubleTitleEntry : CollectionEntry :=
  ⟨"unnamed0", ⟨[("title", "CPU 0 of %s"), ("origin", "o1"), ("source", "host1"),
    ("template", "t1"), ("filter", "0")]⟩⟩

/-- The collection the call on `doubleTitleLibrary` returns for `host1`. -/
def doubleTitleResult : Collection :=
  { Item := { ID := "", Name := "host1" },
    Entries := [doubleTitleEntry,
      ⟨"unnamed1", ⟨[("title", "CPU 1 of %s"), ("origin", "o1"), ("source", "host1"),
        ("template", "t1"), ("filter", "1")]⟩⟩],
    Parent := none, Children := [] }

/-- Two sources hold the same metric names, possibly enumerated in a different order. -/
def SameMetrics (s₁ s₂ : Source) : Prop := s₁.Metrics.keys.Perm s₂.Metrics.keys

/-- Two origins hold the same sources, enumerated alike, with the same metric names each. -/
def SameSources (o₁ o₂ : Origin) : Prop :=
  List.Forall₂ (fun p q => p.1 = q.1 ∧ SameMetrics p.2 q.2) o₁.Sources.entries o₂.Sources.entries

/-- Two libraries differ at most in the order in which the metrics of their sources are
enumerated: same registry, same origins and sources in the same order, same metric names. -/
def SameUpToMetricOrder (l₁ l₂ : Library) : Prop :=
  l₁.Config = l₂.Config ∧
  List.Forall₂ (fun p q => p.1 = q.1 ∧ SameSources p.2 q.2)
    l₁.Catalog.Origins.entries l₂.Catalog.Origins.entries

/-- The sample library with the metrics of `host1` enumerated in another order. -/
def sampleLibraryReordered : Library :=
  { Catalog :=
      ⟨⟨[("o1", ⟨⟨[("host1", ⟨⟨[("cpu.0.s", ()), ("cpu.1.u", ()), ("cpu.0.u", ())]⟩⟩)]⟩⟩)]⟩⟩,
    Config := sampleLibrary.Config }

/-! ## The heap: pointers and map references

The value model above identifies an object with its content.  The claims about sharing need the
references of the code: a `map[string]string` value is a reference to a map object, a
`*CollectionEntry` and a `*Collection` are pointers.  Objects live in a heap, a reference is the
index of its object, and allocation appends.  A slice of pointers is kept as the list of its
elements: the code only ever appends to slices that start out nil, so it writes into no backing
array that another slice can see. -/

/-- A `CollectionEntry` object: `Options` is a map reference (`none` is the nil map). -/
structure EntryCell where
  ID : String
  Options : Option Nat
  deriving DecidableEq

/-- A `Collection` object: `Entries`, `Parent` and `Children` hold pointers. -/
structure CollectionCell where
  Item : Item
  Entries : List Nat
  Parent : Option Nat
  Children : List Nat
  deriving DecidableEq

/-- The heap: the map objects, the `CollectionEntry` objects and the `Collection` objects. -/
structure Heap where
  maps : List (GoMap String)
  entries : List EntryCell
  collections : List CollectionCell
  deriving DecidableEq

namespace Heap

/-- The content of the map an `Options` field refers to; the nil map reads as the empty map, a
reference to no object has no content. -/
def optionsOf (h : Heap) (ref : Option Nat) : Option (GoMap String) :=
  match ref with
  | none => some GoMap.empty
  | some a => h.maps[a]?

/-- The value of the entry a pointer refers to: its ID and the content of its option map. -/
def entryAt (h : Heap) (p : Nat) : Option CollectionEntry :=
  match h.entries[p]? with
  | none => none
  | some cell =>
    match h.optionsOf cell.Options with
    | none => none
    | some options => some { ID := cell.ID, Options := options }

/-- The expression `make(map[string]string)`: a new empty map object and its reference. -/
def makeMap (h : Heap) : Heap × Nat :=
  ({ h with maps := h.maps ++ [GoMap.empty] }, h.maps.length)

/-- The assignment `options[k] = v` through the reference `a`. -/
def setOption (h : Heap) (a : Nat) (k v : String) : Heap :=
  match h.maps[a]? with
  | none => h
  | some m => { h with maps := h.maps.set a (m.set k v) }

/-- The index expression `options[k]` through the reference `a`. -/
def index (h : Heap) (a : Nat) (k : String) : String :=
  match h.maps[a]? with
  | none => ""
  | some m => m.index k

/-- The expression `&CollectionEntry{...}`: a new entry object and the pointer to it. -/
def newEntry (h : Heap) (cell : EntryCell) : Heap × Nat :=
  ({ h with entries := h.entries ++ [cell] }, h.entries.length)

/-- The expression `&Collection{...}`: a new collection object and the pointer to it. -/
def newCollection (h : Heap) (cell : CollectionCell) : Heap × Nat :=
  ({ h with collections := h.collections ++ [cell] }, h.collections.length)

end Heap

namespace OnHeap

/-- The loop of lines 41-49 on pointers: each entry pointer is dereferenced for the test of
lines 42-46 and, when kept, the pointer itself is appended. -/
def filterLoop (toLower : String → String) (filter : String) (h : Heap) :
    List Nat → List Nat → Outcome (List Nat)
  | [], acc => .returned acc
  | entry :: rest, acc =>
    match h.entryAt entry with
    | none => .panic
    | some e =>
      if keepEntry toLower filter e then filterLoop toLower filter h rest (acc ++ [entry])
      else filterLoop toLower filter h rest acc

/-- FilterCollection on the heap: `collection` is a pointer, the result is the new heap and the
returned pointer (`none` is nil).  The object `collectionTemp` is new and private to the call
until it is returned, so it is written to the heap once, in its final state. -/
def FilterCollection (toLower : String → String) (h : Heap) (collection : Nat)
    (filter : String) : Outcome (Heap × Option Nat) :=
  if filter = "" then .returned (h, none)
  else
    match h.collections[collection]? with
    | none => .panic
    | some c =>
      let collectionTemp : CollectionCell := { c with Entries := [] }
      match filterLoop toLower filter h c.Entries collectionTemp.Entries with
      | .panic => .panic
      | .returned entries =>
        let r := h.newCollection { collectionTemp with Entries := entries }
        .returned (r.1, some r.2)

end OnHeap

/-- The values of the entries a list of pointers refers to. -/
def Heap.entriesAt (h : Heap) : List Nat → Option (List CollectionEntry)
  | [] => some []
  | p :: ps =>
    match h.entryAt p, Heap.entriesAt h ps with
    | some e, some es => some (e :: es)
    | _, _ => none

/-- The collection value a collection object stands for: its entry pointers dereferenced. -/
def Heap.collectionOf (h : Heap) (cell : CollectionCell) : Option Collection :=
  match h.entriesAt cell.Entries with
  | none => none
  | some entries =>
    some { Item := cell.Item, Entries := entries, Parent := cell.Parent,
           Children := cell.Children }

/-- An example heap: the object of the sample collection, its three entry objects and their
option maps. -/
def sampleHeap : Heap :=
  { maps := [⟨[("title", "My CPU Graph"), ("origin", "o1")]⟩, ⟨[("origin", "o1")]⟩,
             ⟨[("title", "Memory")]⟩],
    entries := [⟨"unnamed0", some 0⟩, ⟨"unnamed1", some 1⟩, ⟨"unnamed2", some 2⟩],
    collections := [⟨⟨"", "host1"⟩, [0, 1, 2], none, []⟩] }

namespace OnHeap

/-- Modelled from the spec: `config.TemplateConfig` with its default option set as the code holds
it, a map reference (`none` is the nil map). -/
structure TemplateConfig where
  SplitPattern : String
  SplitRegexp : Option Regexp
  Options : Option Nat

/-- Modelled from the spec: the per-origin configuration, over templates with references. -/
structure OriginConfig where
  Templates : GoMap TemplateConfig

/-- Modelled from the spec: the configuration, over templates with references. -/
structure Config where
  Origins : GoMap OriginConfig

/-- The receiver, over templates with references. -/
structure Library where
  Catalog : Catalog
  Config : Config

/-- Modelled from the spec: `utils.Clone(src, &dst)` is not among the sources; the spec has it
clone the template's default option set, every entry's option set being an independent copy.
The map object `dst` receives the bindings of the map object `src`, which is only read. -/
def Clone (h : Heap) (src dst : Nat) : Outcome Heap :=
  match h.maps[src]? with
  | none => .panic
  | some m => .returned { h with maps := h.maps.set dst (Facette.Clone m) }

/-- Lines 102-106 and 125-129: `options = make(map[string]string)`, then the clone of the template
options into it, if any.  The result is the new heap and the reference held by `options`. -/
def freshOptions (h : Heap) (template : TemplateConfig) : Outcome (Heap × Nat) :=
  let made := h.makeMap
  match template.Options with
  | none => .returned made
  | some src =>
    match Clone made.1 src made.2 with
    | .panic => .panic
    | .returned h' => .returned (h', made.2)

/-- Lines 102-120: the entry object emitted for one split item, and the pointer to it. -/
def splitEntry (h : Heap) (originName name templateName : String) (template : TemplateConfig)
    (itemName : String) (count : Nat) : Outcome (Heap × Nat) :=
  match freshOptions h template with
  | .panic => .panic
  | .returned made =>
    let options := made.2
    let h := made.1.setOption options "origin" originName
    let h := h.setOption options "source" name
    let h := h.setOption options "template" templateName
    let h := h.setOption options "filter" itemName
    let h :=
      if h.index options "title" ≠ "" then
        h.setOption options "title" (Replace1 (h.index options "title") "%s" itemName)
      else h
    .returned (h.newEntry { ID := sprintfUnnamed count, Options := some options })

/-- Lines 125-138: the entry object emitted for a template without split pattern. -/
def plainEntry (h : Heap) (originName name templateName : String) (template : TemplateConfig)
    (count : Nat) : Outcome (Heap × Nat) :=
  match freshOptions h template with
  | .panic => .panic
  | .returned made =>
    let options := made.2
    let h := made.1.setOption options "origin" originName
    let h := h.setOption options "source" name
    let h := h.setOption options "template" templateName
    .returned (h.newEntry { ID := sprintfUnnamed count, Options := some options })

/-- The variables the inner loops change: the heap, the pointers in `collection.Entries` and
`count`. -/
structure LoopState where
  heap : Heap
  Entries : List Nat
  count : Nat

/-- The loop of lines 101-123 over the sorted split items. -/
def splitLoop (originName name templateName : String) (template : TemplateConfig) :
    List String → LoopState → Outcome LoopState
  | [], st => .returned st
  | itemName :: rest, st =>
    match splitEntry st.heap originName name templateName template itemName st.count with
    | .panic => .panic
    | .returned r =>
      splitLoop originName name templateName template rest
        { heap := r.1, Entries := st.Entries ++ [r.2], count := st.count + 1 }

/-- The metric names of `library.Catalog.Origins[originName].Sources[name].Metrics` (line 90). -/
def metricNames (library : Library) (originName name : String) : Outcome (List String) :=
  match library.Catalog.Origins.get? originName with
  | none => .panic
  | some origin =>
    match origin.Sources.get? name with
    | none => .panic
    | some source => .returned source.Metrics.keys

/-- Lines 85-141: the body of the loop over template names. -/
def processTemplate (library : Library) (originName name templateName : String)
    (st : LoopState) : Outcome LoopState :=
  match library.Config.Origins.get? originName with
  | none => .panic
  | some originConfig =>
    match originConfig.Templates.get? templateName with
    | none => .panic
    | some template =>
      if template.SplitPattern ≠ "" then
        match metricNames library originName name with
        | .panic => .panic
        | .returned metrics =>
          match scanMetrics template.SplitRegexp metrics GoSet.New with
          | .panic => .panic
          | .returned splitSet =>
            splitLoop originName name templateName template
              (sortStrings splitSet.StringSlice) st
      else
        match plainEntry st.heap originName name templateName template st.count with
        | .panic => .panic
        | .returned r =>
          .returned { heap := r.1, Entries := st.Entries ++ [r.2], count := st.count + 1 }

/-- The loop of lines 84-142 over the template names. -/
def templateLoop (library : Library) (originName name : String) :
    List String → LoopState → Outcome LoopState
  | [], st => .returned st
  | templateName :: rest, st =>
    match processTemplate library originName name templateName st with
    | .panic => .panic
    | .returned st' => templateLoop library originName name rest st'

/-- The variables that live across iterations of the loop over the origins. -/
structure SynthState where
  templates : List String
  loop : LoopState
  found : Bool

/-- Lines 71-142: the body of the loop over the origins of the catalog. -/
def processOrigin (library : Library) (name : String) (originName : String) (origin : Origin)
    (st : SynthState) : Outcome SynthState :=
  match origin.Sources.get? name with
  | none => .returned st
  | some _ =>
    match library.Config.Origins.get? originName with
    | none => .panic
    | some originConfig =>
      let templates := sortStrings (st.templates ++ originConfig.Templates.keys)
      match templateLoop library originName name templates st.loop with
      | .panic => .panic
      | .returned r => .returned { templates := templates, loop := r, found := true }

/-- The loop of lines 70-143 over `library.Catalog.Origins`, in enumeration order. -/
def originLoop (library : Library) (name : String) :
    List (String × Origin) → SynthState → Outcome SynthState
  | [], st => .returned st
  | o :: rest, st =>
    match processOrigin library name o.1 o.2 st with
    | .panic => .panic
    | .returned st' => originLoop library name rest st'

/-- GetCollectionTemplate on the heap: the result is the new heap, the returned collection
pointer (`none` is nil) and the error.  The object `collection` is new and private to the call
until it is returned, so it is written to the heap once, in its final state; when the call fails
it is garbage and left out. -/
def GetCollectionTemplate (h : Heap) (library : Library) (name : String) :
    Outcome (Heap × Option Nat × Option GoError) :=
  match originLoop library name library.Catalog.Origins.entries
      { templates := [], loop := { heap := h, Entries := [], count := 0 }, found := false } with
  | .panic => .panic
  | .returned st =>
    if st.found then
      let r := st.loop.heap.newCollection
        { Item := { ID := "", Name := name }, Entries := st.loop.Entries,
          Parent := none, Children := [] }
      .returned (r.1, some r.2, none)
    else .returned (h, none, some GoError.ErrNotExist)

/-- The template as the value model sees it: the default option set read through its
reference. -/
def TemplateConfig.deref (h : Heap) (t : TemplateConfig) : Facette.TemplateConfig :=
  { SplitPattern := t.SplitPattern, SplitRegexp := t.SplitRegexp,
    Options := match t.Options with
      | none => none
      | some a => h.maps[a]? }

/-- The library as the value model sees it. -/
def Library.deref (h : Heap) (library : Library) : Facette.Library :=
  { Catalog := library.Catalog,
    Config := ⟨⟨library.Config.Origins.entries.map (fun oc =>
      (oc.1, ⟨⟨oc.2.Templates.entries.map (fun t => (t.1, t.2.deref h))⟩⟩))⟩⟩ }

/-- The heap is closed for the library: every default option set of the registry refers to a map
object of the heap. -/
def Closed (h : Heap) (library : Library) : Prop :=
  ∀ oc ∈ library.Config.Origins.entries, ∀ t ∈ oc.2.Templates.entries,
    ∀ a, t.2.Options = some a → a < h.maps.length

end OnHeap

/-- The heap after one more entry is emitted with the given value: a new map object with the
entry's options and a new entry object that refers to it. -/
def Heap.storeEntry (h : Heap) (e : CollectionEntry) : Heap :=
  { h with maps := h.maps ++ [e.Options],
           entries := h.entries ++ [{ ID := e.ID, Options := some h.maps.length }] }

/-- The loop state after the entries with the given values are emitted, in order, on top of the
heap `h`. -/
def Heap.storeEntries (h : Heap) (es : List CollectionEntry) (count : Nat) : OnHeap.LoopState :=
  { heap := es.foldl Heap.storeEntry h,
    Entries := List.range' h.entries.length es.length,
    count := count }

/-- The outcome of the inner loops on the heap that corresponds to an outcome of the value model:
the emitted entries stored on top of the heap `h`. -/
def Heap.reifyLoop (h : Heap) :
    Outcome (List CollectionEntry × Nat) → Outcome OnHeap.LoopState
  | .panic => .panic
  | .returned r => .returned (h.storeEntries r.1 r.2)

/-- The outcome of the origin loop on the heap that corresponds to an outcome of the value
model. -/
def Heap.reifyState (h : Heap) : Outcome SynthState → Outcome OnHeap.SynthState
  | .panic => .panic
  | .returned st =>
    .returned { templates := st.templates, loop := h.storeEntries st.Entries st.count,
                found := st.found }

/-- The outcome of the call on the heap that corresponds to an outcome of the value model: the
entries of the returned collection stored on top of the heap `h`, then the collection object. -/
def Heap.reifyResult (h : Heap) :
    Outcome (Option Collection × Option GoError) → Outcome (Heap × Option Nat × Option GoError)
  | .panic => .panic
  | .returned (none, err) => .returned (h, none, err)
  | .returned (some c, err) =>
    let st := h.storeEntries c.Entries 0
    let r := st.heap.newCollection
      { Item := c.Item, Entries := st.Entries, Parent := c.Parent, Children := c.Children }
    .returned (r.1, some r.2, err)

/-- An example heap that holds the two default option sets of the sample registry. -/
def registryHeap : Heap :=
  { maps := [⟨[("title", "CPU %s")]⟩, ⟨[("title", "Host")]⟩], entries := [], collections := [] }

/-- The sample library with its default option sets held by reference into `registryHeap`. -/
def sampleHeapLibrary : OnHeap.Library :=
  { Catalog := sampleCatalog,
    Config := ⟨⟨[("o1", ⟨⟨[("t1", ⟨"cpu", some digitRegexp, some 0⟩),
                           ("t0", ⟨"", none, some 1⟩)]⟩⟩)]⟩⟩ }

/-! # Theorems -/

/-! ## Facts about Go maps -/

theorem GoMap.lookup_cons_ite {V : Type} (a : String) (b : V) (l : List (String × V))
    (k : String) : ((a, b) :: l).lookup k = if k = a then some b else l.lookup k := by
  by_cases h : k = a
  · subst h
    simp [List.lookup]
  · have hne : (k == a) = false := by simpa using h
    simp only [List.lookup, hne, h, if_false]

theorem GoMap.lookup_setEntry {V : Type} (k : String) (v : V) (k' : String)
    (l : List (String × V)) :
    (GoMap.setEntry k v l).lookup k' = if k' = k then some v else l.lookup k' := by
  induction l with
  | nil =>
    simp only [GoMap.setEntry, GoMap.lookup_cons_ite]
  | cons p rest ih =>
    obtain ⟨a, b⟩ := p
    by_cases hak : a = k
    · simp only [GoMap.setEntry, hak, if_true, GoMap.lookup_cons_ite]
      by_cases h : k' = k
      · simp only [h, if_true]
      · simp only [h, if_false]
    · simp only [GoMap.setEntry, hak, if_false, GoMap.lookup_cons_ite, ih]
      by_cases h : k' = a
      · have hk : ¬ k' = k := fun e => hak (h ▸ e)
        simp only [h, hak, if_true, if_false]
      · simp only [h, if_false]

theorem GoMap.get?_set {V : Type} (m : GoMap V) (k : String) (v : V) (k' : String) :
    (m.set k v).get? k' = if k' = k then some v else m.get? k' :=
  GoMap.lookup_setEntry k v k' m.entries

theorem GoMap.lookup_mem {V : Type} (k : String) (v : V) :
    ∀ l : List (String × V), l.lookup k = some v → (k, v) ∈ l
  | [], h => by simp [List.lookup] at h
  | (a, b) :: rest, h => by
    by_cases hk : k = a
    · subst hk
      simp [List.lookup] at h
      simp [h]
    · have hne : (k == a) = false := by simpa using hk
      simp only [List.lookup, hne] at h
      exact List.mem_cons_of_mem _ (GoMap.lookup_mem k v rest h)

theorem GoMap.lookup_isSome_of_mem_keys {V : Type} (k : String) :
    ∀ l : List (String × V), k ∈ l.map Prod.fst → ∃ v, l.lookup k = some v
  | [], h => by simp at h
  | (a, b) :: rest, h => by
    by_cases hk : k = a
    · subst hk
      exact ⟨b, by simp [List.lookup]⟩
    · have hne : (k == a) = false := by simpa using hk
      have hmem : k ∈ rest.map Prod.fst := by
        simpa [hk] using h
      obtain ⟨v, hv⟩ := GoMap.lookup_isSome_of_mem_keys k rest hmem
      exact ⟨v, by simp only [List.lookup, hne, hv]⟩

theorem GoMap.lookup_of_mem_of_nodup {V : Type} (k : String) (v : V) :
    ∀ l : List (String × V), (l.map Prod.fst).Nodup → (k, v) ∈ l → l.lookup k = some v
  | [], _, h => by simp at h
  | (a, b) :: rest, hnd, h => by
    simp only [List.map_cons, List.nodup_cons] at hnd
    by_cases hk : k = a
    · subst hk
      rcases List.mem_cons.1 h with h1 | h1
      · cases h1
        simp [List.lookup]
      · exact absurd (List.mem_map_of_mem Prod.fst h1) hnd.1
    · have hne : (k == a) = false := by simpa using hk
      rcases List.mem_cons.1 h with h1 | h1
      · cases h1
        exact absurd rfl hk
      · simp only [List.lookup, hne]
        exact GoMap.lookup_of_mem_of_nodup k v rest hnd.2 h1

theorem GoMap.get?_mem {V : Type} (m : GoMap V) (k : String) (v : V)
    (h : m.get? k = some v) : (k, v) ∈ m.entries :=
  GoMap.lookup_mem k v m.entries h

theorem GoMap.get?_of_mem {V : Type} (m : GoMap V) (hm : m.WF) (k : String) (v : V)
    (h : (k, v) ∈ m.entries) : m.get? k = some v :=
  GoMap.lookup_of_mem_of_nodup k v m.entries hm h

theorem GoMap.get?_of_mem_keys {V : Type} (m : GoMap V) (k : String) (h : k ∈ m.keys) :
    ∃ v, m.get? k = some v :=
  GoMap.lookup_isSome_of_mem_keys k m.entries h


theorem digitValue_digitChar (d : Nat) (h : d < 10) : digitValue (Nat.digitChar d) = d := by
  interval_cases d <;> rfl

theorem toDigitsCore_append (fuel : Nat) : ∀ (n : Nat) (ds : List Char),
    Nat.toDigitsCore 10 fuel n ds = Nat.toDigitsCore 10 fuel n [] ++ ds := by
  induction fuel with
  | zero => intro n ds; simp [Nat.toDigitsCore]
  | succ fuel ih =>
    intro n ds
    simp only [Nat.toDigitsCore]
    by_cases h : n / 10 = 0
    · simp [h]
    · simp only [h, if_false]
      rw [ih (n / 10) (Nat.digitChar (n % 10) :: ds), ih (n / 10) [Nat.digitChar (n % 10)]]
      simp

theorem decimalValue_append_singleton (l : List Char) (c : Char) :
    decimalValue (l ++ [c]) = 10 * decimalValue l + digitValue c := by
  simp [decimalValue, List.foldl_append]

theorem decimalValue_toDigitsCore (fuel : Nat) : ∀ n : Nat, n < fuel →
    decimalValue (Nat.toDigitsCore 10 fuel n []) = n := by
  induction fuel with
  | zero => intro n h; omega
  | succ fuel ih =>
    intro n hn
    simp only [Nat.toDigitsCore]
    by_cases h : n / 10 = 0
    · simp only [h, if_true]
      have hlt : n % 10 < 10 := Nat.mod_lt _ (by decide)
      have := digitValue_digitChar (n % 10) hlt
      simp only [decimalValue, List.foldl, this]
      omega
    · simp only [h, if_false]
      rw [toDigitsCore_append, decimalValue_append_singleton,
        ih (n / 10) (by omega), digitValue_digitChar (n % 10) (Nat.mod_lt _ (by decide))]
      omega

theorem repr_injective : Function.Injective Nat.repr := by
  intro a b h
  have h1 : Nat.toDigits 10 a = Nat.toDigits 10 b := by
    have := congrArg String.data h
    simpa [Nat.repr, List.asString] using this
  have ha := decimalValue_toDigitsCore (a + 1) a (by omega)
  have hb := decimalValue_toDigitsCore (b + 1) b (by omega)
  simp only [Nat.toDigits] at h1
  rw [h1] at ha
  omega

theorem sprintfUnnamed_injective : Function.Injective sprintfUnnamed := by
  intro a b h
  apply repr_injective
  have := congrArg String.data h
  simp only [sprintfUnnamed, String.data_append] at this
  exact String.ext (List.append_cancel_left this)


/-! ## Facts about the string functions -/

theorem containsChars_iff (sub : List Char) : ∀ s : List Char,
    containsChars s sub = true ↔ sub <:+: s
  | [] => by
    cases sub with
    | nil => simp [containsChars]
    | cons a l => simp [containsChars]
  | c :: s => by
    simp only [containsChars, Bool.or_eq_true, List.isPrefixOf_iff_prefix,
      containsChars_iff sub s, List.infix_cons_iff]

theorem Contains_iff (s substr : String) : Contains s substr = true ↔ substr.data <:+: s.data :=
  containsChars_iff substr.data s.data

/-! ## Facts about FilterCollection -/

theorem filterLoop_eq (toLower : String → String) (filter : String) :
    ∀ (l acc : List CollectionEntry),
      filterLoop toLower filter l acc = acc ++ l.filter (keepEntry toLower filter)
  | [], acc => by simp [filterLoop]
  | entry :: rest, acc => by
    by_cases h : keepEntry toLower filter entry = true
    · simp [filterLoop, h, filterLoop_eq toLower filter rest]
    · simp [filterLoop, h, filterLoop_eq toLower filter rest]

theorem keepEntry_iff (toLower : String → String) (filter : String) (entry : CollectionEntry) :
    keepEntry toLower filter entry = true ↔ TitleMatches toLower filter entry := by
  unfold keepEntry TitleMatches GoMap.index
  cases h : entry.Options.get? "title" with
  | none => simp
  | some title => simp [Contains_iff]

/-- C9: for every collection, filtering with the empty string returns the nil pointer, never a
collection value, whatever the entries are. -/
theorem FilterCollection_empty (toLower : String → String) (c : Collection) :
    FilterCollection toLower c "" = none := by
  simp [FilterCollection]

/-- C10: for every collection and every non-empty filter string, the entries of the result are
exactly the entries of the input, in their original order and with their multiplicity, whose
options contain a `title` key and whose lower-cased title contains the lower-cased filter string;
in particular no entry without a `title` key is included. -/
theorem FilterCollection_entries (toLower : String → String) (c : Collection) (s : String)
    (hs : s ≠ "") :
    ∃ r, FilterCollection toLower c s = some r ∧
      r.Entries = c.Entries.filter (fun e => decide (TitleMatches toLower s e)) ∧
      r.Entries.Sublist c.Entries ∧
      ∀ e ∈ r.Entries, e.Options.get? "title" ≠ none := by
  have hk : keepEntry toLower s = fun e => decide (TitleMatches toLower s e) := by
    funext e
    by_cases h : TitleMatches toLower s e
    · simp [h, (keepEntry_iff toLower s e).2 h]
    · have : ¬ keepEntry toLower s e = true := fun hk => h ((keepEntry_iff toLower s e).1 hk)
      simp [h, this]
  have hF : FilterCollection toLower c s =
      some { c with Entries := c.Entries.filter (fun e => decide (TitleMatches toLower s e)) } := by
    simp only [FilterCollection, hs, if_false, filterLoop_eq, List.nil_append, hk]
  refine ⟨_, hF, rfl, List.filter_sublist _, ?_⟩
  intro e he
  simp only [List.mem_filter, decide_eq_true_eq] at he
  obtain ⟨_, t, ht, _⟩ := he
  simp [ht]

/-- C10 at an example: the filter `"cpu"` keeps the entry titled `"My CPU Graph"`. -/
theorem FilterCollection_entries_witness :
    "cpu" ≠ "" ∧ ∃ r, FilterCollection asciiLower sampleCollection "cpu" = some r ∧
      r.Entries = sampleCollection.Entries.filter
        (fun e => decide (TitleMatches asciiLower "cpu" e)) ∧
      r.Entries.Sublist sampleCollection.Entries ∧
      ∀ e ∈ r.Entries, e.Options.get? "title" ≠ none :=
  ⟨by decide, FilterCollection_entries asciiLower sampleCollection "cpu" (by decide)⟩

/-! ## The loops of GetCollectionTemplate -/

theorem forall₂_exists_of_mem_right {α β : Type} {R : α → β → Prop} {l₁ : List α} {l₂ : List β}
    (h : List.Forall₂ R l₁ l₂) {b : β} (hb : b ∈ l₂) : ∃ a ∈ l₁, R a b := by
  induction h with
  | nil => simp at hb
  | cons hr _ ih =>
    rcases List.mem_cons.1 hb with rfl | hb'
    · exact ⟨_, List.mem_cons_self _ _, hr⟩
    · obtain ⟨a, ha, hab⟩ := ih hb'
      exact ⟨a, List.mem_cons_of_mem _ ha, hab⟩

theorem splitLoop_spec (originName name templateName : String) (template : TemplateConfig) :
    ∀ (items : List String) (st : List CollectionEntry × Nat),
      ∃ new, splitLoop originName name templateName template items st
          = (st.1 ++ new, st.2 + new.length) ∧
        List.Forall₂
          (fun itemName e =>
            ∃ count, e = splitEntry originName name templateName template itemName count)
          items new
  | [], st => ⟨[], by simp [splitLoop], List.Forall₂.nil⟩
  | itemName :: rest, st => by
    obtain ⟨new, hnew, hall⟩ := splitLoop_spec originName name templateName template rest
      (st.1 ++ [splitEntry originName name templateName template itemName st.2], st.2 + 1)
    refine ⟨splitEntry originName name templateName template itemName st.2 :: new, ?_,
      List.Forall₂.cons ⟨st.2, rfl⟩ hall⟩
    rw [splitLoop, hnew]
    simp [Nat.add_assoc, Nat.add_comm 1]

theorem processTemplate_spec (library : Library) (originName name templateName : String)
    (st st' : List CollectionEntry × Nat)
    (h : processTemplate library originName name templateName st = .returned st') :
    ∃ new, st' = (st.1 ++ new, st.2 + new.length) ∧
      TemplateEmits library originName name templateName new := by
  unfold processTemplate at h
  cases hoc : library.Config.Origins.get? originName with
  | none => simp [hoc] at h
  | some originConfig =>
    cases ht : originConfig.Templates.get? templateName with
    | none => simp [hoc, ht] at h
    | some template =>
      simp only [hoc, ht] at h
      by_cases hsp : template.SplitPattern = ""
      · simp only [hsp, ne_eq, not_true_eq_false, if_false, Outcome.returned.injEq] at h
        refine ⟨[plainEntry originName name templateName template st.2], ?_, ?_⟩
        · simp [← h]
        · exact ⟨originConfig, template, hoc, ht, Or.inl ⟨hsp, st.2, rfl⟩⟩
      · simp only [ne_eq, hsp, not_false_eq_true, if_true] at h
        cases hm : metricNames library originName name with
        | panic => simp [hm] at h
        | returned metrics =>
          cases hs : scanMetrics template.SplitRegexp metrics GoSet.New with
          | panic => simp [hm, hs] at h
          | returned splitSet =>
            simp only [hm, hs, Outcome.returned.injEq] at h
            obtain ⟨new, hnew, hall⟩ := splitLoop_spec originName name templateName template
              (sortStrings splitSet.StringSlice) st
            refine ⟨new, by rw [← h, hnew], ?_⟩
            exact ⟨originConfig, template, hoc, ht, Or.inr ⟨hsp, metrics, splitSet, hm, hs, hall⟩⟩

theorem templateLoop_spec (library : Library) (originName name : String) :
    ∀ (templates : List String) (st st' : List CollectionEntry × Nat),
      templateLoop library originName name templates st = .returned st' →
      ∃ blocks : List (List CollectionEntry),
        st' = (st.1 ++ blocks.flatten, st.2 + blocks.flatten.length) ∧
        List.Forall₂ (TemplateEmits library originName name) templates blocks
  | [], st, st', h => by
    simp only [templateLoop, Outcome.returned.injEq] at h
    exact ⟨[], by simp [← h], List.Forall₂.nil⟩
  | templateName :: rest, st, st', h => by
    simp only [templateLoop] at h
    cases hp : processTemplate library originName name templateName st with
    | panic => simp [hp] at h
    | returned st1 =>
      simp only [hp] at h
      obtain ⟨new, hst1, hemit⟩ := processTemplate_spec library originName name templateName _ _ hp
      obtain ⟨blocks, hst', hall⟩ := templateLoop_spec library originName name rest st1 st' h
      refine ⟨new :: blocks, ?_, List.Forall₂.cons hemit hall⟩
      rw [hst', hst1]
      simp [Nat.add_assoc]

theorem processOrigin_spec (library : Library) (name originName : String) (origin : Origin)
    (st st' : SynthState)
    (h : processOrigin library name originName origin st = .returned st') :
    (origin.Sources.get? name = none ∧ st' = st) ∨
    (origin.Sources.get? name ≠ none ∧ ∃ originConfig blocks,
      library.Config.Origins.get? originName = some originConfig ∧
      List.Forall₂ (TemplateEmits library originName name)
        (sortStrings (st.templates ++ originConfig.Templates.keys)) blocks ∧
      st' = { templates := sortStrings (st.templates ++ originConfig.Templates.keys),
              Entries := st.Entries ++ blocks.flatten,
              count := st.count + blocks.flatten.length,
              found := true }) := by
  unfold processOrigin at h
  cases hs : origin.Sources.get? name with
  | none =>
    simp only [hs, Outcome.returned.injEq] at h
    exact Or.inl ⟨rfl, h.symm⟩
  | some source =>
    simp only [hs] at h
    cases hoc : library.Config.Origins.get? originName with
    | none => simp [hoc] at h
    | some originConfig =>
      simp only [hoc] at h
      cases ht : templateLoop library originName name
          (sortStrings (st.templates ++ originConfig.Templates.keys)) (st.Entries, st.count) with
      | panic => simp [ht] at h
      | returned r =>
        simp only [ht, Outcome.returned.injEq] at h
        obtain ⟨blocks, hr, hall⟩ := templateLoop_spec library originName name _ _ _ ht
        refine Or.inr ⟨by simp, originConfig, blocks, rfl, hall, ?_⟩
        rw [← h, hr]

theorem originLoop_skip (library : Library) (name : String) :
    ∀ (origins : List (String × Origin)) (st : SynthState),
      (∀ o ∈ origins, o.2.Sources.get? name = none) →
      originLoop library name origins st = .returned st
  | [], st, _ => rfl
  | o :: rest, st, h => by
    have ho : o.2.Sources.get? name = none := h o (List.mem_cons_self _ _)
    have hrest := originLoop_skip library name rest st
      (fun o' ho' => h o' (List.mem_cons_of_mem _ ho'))
    simp only [originLoop, processOrigin, ho, hrest]

theorem originLoop_found (library : Library) (name : String) :
    ∀ (origins : List (String × Origin)) (st st' : SynthState),
      originLoop library name origins st = .returned st' →
      (st'.found = true ↔ st.found = true ∨ ∃ o ∈ origins, o.2.Sources.get? name ≠ none)
  | [], st, st', h => by
    simp only [originLoop, Outcome.returned.injEq] at h
    simp [← h]
  | o :: rest, st, st', h => by
    simp only [originLoop] at h
    cases hp : processOrigin library name o.1 o.2 st with
    | panic => simp [hp] at h
    | returned st1 =>
      simp only [hp] at h
      have ih := originLoop_found library name rest st1 st' h
      rcases processOrigin_spec library name o.1 o.2 st st1 hp with ⟨hno, heq⟩ | ⟨hyes, _, _, _, _, heq⟩
      · rw [ih, heq]
        simp [hno]
      · rw [ih, heq]
        simp only [true_or, true_iff]
        exact Or.inr ⟨o, List.mem_cons_self _ _, hyes⟩

theorem originLoop_emitted (library : Library) (name : String) :
    ∀ (origins : List (String × Origin)) (st st' : SynthState),
      originLoop library name origins st = .returned st' →
      ∀ e ∈ st'.Entries, e ∈ st.Entries ∨
        ∃ o ∈ origins, o.2.Sources.get? name ≠ none ∧
          ∃ templateName new, TemplateEmits library o.1 name templateName new ∧ e ∈ new
  | [], st, st', h => by
    simp only [originLoop, Outcome.returned.injEq] at h
    intro e he
    exact Or.inl (h ▸ he)
  | o :: rest, st, st', h => by
    simp only [originLoop] at h
    cases hp : processOrigin library name o.1 o.2 st with
    | panic => simp [hp] at h
    | returned st1 =>
      simp only [hp] at h
      intro e he
      rcases originLoop_emitted library name rest st1 st' h e he with h1 | ⟨o', ho', hs', hx⟩
      · rcases processOrigin_spec library name o.1 o.2 st st1 hp with
          ⟨_, heq⟩ | ⟨hyes, _, blocks, _, hall, heq⟩
        · exact Or.inl (heq ▸ h1)
        · rw [heq] at h1
          rcases List.mem_append.1 h1 with h2 | h2
          · exact Or.inl h2
          · obtain ⟨new, hnew, hmem⟩ := List.mem_flatten.1 h2
            obtain ⟨templateName, _, hemit⟩ := forall₂_exists_of_mem_right hall hnew
            exact Or.inr ⟨o, List.mem_cons_self _ _, hyes, templateName, new, hemit, hmem⟩
      · exact Or.inr ⟨o', List.mem_cons_of_mem _ ho', hs', hx⟩

theorem GetCollectionTemplate_returned (library : Library) (name : String)
    (r : Option Collection × Option GoError)
    (h : GetCollectionTemplate library name = .returned r) :
    ∃ st, originLoop library name library.Catalog.Origins.entries initialState = .returned st ∧
      r = if st.found then
            (some { Item := { ID := "", Name := name }, Entries := st.Entries,
                    Parent := none, Children := [] }, none)
          else (none, some GoError.ErrNotExist) := by
  unfold GetCollectionTemplate at h
  cases hl : originLoop library name library.Catalog.Origins.entries
      { templates := [], Entries := [], count := 0, found := false } with
  | panic => simp [hl] at h
  | returned st =>
    simp only [hl] at h
    refine ⟨st, hl, ?_⟩
    cases hf : st.found with
    | true =>
      simp only [hf, if_true, Outcome.returned.injEq] at h
      simp [← h]
    | false =>
      simp only [hf, Bool.false_eq_true, if_false, Outcome.returned.injEq] at h
      simp [← h]

theorem GetCollectionTemplate_emitted (library : Library) (name : String) (c : Collection)
    (err : Option GoError) (h : GetCollectionTemplate library name = .returned (some c, err))
    (e : CollectionEntry) (he : e ∈ c.Entries) : Emitted library name e := by
  obtain ⟨st, hl, hr⟩ := GetCollectionTemplate_returned library name _ h
  by_cases hf : st.found = true
  · simp only [hf, if_true, Prod.mk.injEq, Option.some.injEq] at hr
    have hE : c.Entries = st.Entries := by rw [hr.1]
    rw [hE] at he
    rcases originLoop_emitted library name _ _ _ hl e he with h1 | h1
    · simp [initialState] at h1
    · exact h1
  · simp [hf] at hr

/-! ## Completion of the loops -/

theorem scanMetrics_returns (r : Regexp) : ∀ (metrics : List String) (s : GoSet),
    ∃ s', scanMetrics (some r) metrics s = .returned s'
  | [], s => ⟨s, rfl⟩
  | metricName :: rest, s => by
    simp only [scanMetrics]
    split
    · exact scanMetrics_returns r rest _
    · exact scanMetrics_returns r rest _

theorem mem_sortStrings (l : List String) (x : String) : x ∈ sortStrings l ↔ x ∈ l :=
  (List.perm_insertionSort strLE l).mem_iff

theorem processTemplate_returns (library : Library) (originName name templateName : String)
    (originConfig : OriginConfig) (metrics : List String)
    (hoc : library.Config.Origins.get? originName = some originConfig)
    (hm : metricNames library originName name = .returned metrics)
    (hre : ∀ t ∈ originConfig.Templates.entries,
      t.2.SplitPattern ≠ "" → t.2.SplitRegexp.isSome = true)
    (hk : templateName ∈ originConfig.Templates.keys) (st : List CollectionEntry × Nat) :
    ∃ st', processTemplate library originName name templateName st = .returned st' := by
  obtain ⟨template, ht⟩ := GoMap.get?_of_mem_keys _ _ hk
  have hmem := GoMap.get?_mem _ _ _ ht
  unfold processTemplate
  simp only [hoc, ht, hm]
  by_cases hsp : template.SplitPattern = ""
  · simp [hsp]
  · have hsome := hre _ hmem hsp
    obtain ⟨r, hr⟩ := Option.isSome_iff_exists.1 hsome
    simp only [ne_eq, hsp, not_false_eq_true, if_true]
    have hr' : template.SplitRegexp = some r := hr
    obtain ⟨s', hs'⟩ := scanMetrics_returns r metrics GoSet.New
    rw [hr', hs']
    exact ⟨_, rfl⟩

theorem templateLoop_returns (library : Library) (originName name : String)
    (originConfig : OriginConfig) (metrics : List String)
    (hoc : library.Config.Origins.get? originName = some originConfig)
    (hm : metricNames library originName name = .returned metrics)
    (hre : ∀ t ∈ originConfig.Templates.entries,
      t.2.SplitPattern ≠ "" → t.2.SplitRegexp.isSome = true) :
    ∀ (templates : List String), (∀ t ∈ templates, t ∈ originConfig.Templates.keys) →
      ∀ st, ∃ st', templateLoop library originName name templates st = .returned st'
  | [], _, st => ⟨st, rfl⟩
  | templateName :: rest, hk, st => by
    obtain ⟨st1, h1⟩ := processTemplate_returns library originName name templateName
      originConfig metrics hoc hm hre (hk _ (List.mem_cons_self _ _)) st
    obtain ⟨st2, h2⟩ := templateLoop_returns library originName name originConfig metrics
      hoc hm hre rest (fun t ht => hk t (List.mem_cons_of_mem _ ht)) st1
    exact ⟨st2, by simp only [templateLoop, h1, h2]⟩

theorem processOrigin_returns (library : Library) (name : String) (hwf : library.Catalog.Origins.WF)
    (hc : Consistent library) (o : String × Origin) (ho : o ∈ library.Catalog.Origins.entries)
    (st : SynthState) (ht : st.templates = []) :
    ∃ st', processOrigin library name o.1 o.2 st = .returned st' := by
  unfold processOrigin
  cases hs : o.2.Sources.get? name with
  | none => exact ⟨st, rfl⟩
  | some source =>
    obtain ⟨originConfig, hoc⟩ := Option.isSome_iff_exists.1 (hc.1 o ho)
    have hocm := GoMap.get?_mem _ _ _ hoc
    have hm : metricNames library o.1 name = .returned source.Metrics.keys := by
      unfold metricNames
      rw [GoMap.get?_of_mem _ hwf o.1 o.2 ho]
      simp only [hs]
    obtain ⟨r, hr⟩ := templateLoop_returns library o.1 name originConfig _ hoc hm
      (hc.2 _ hocm) (sortStrings (st.templates ++ originConfig.Templates.keys))
      (by
        intro t htm
        rw [mem_sortStrings, ht] at htm
        simpa using htm)
      (st.Entries, st.count)
    simp only [hoc, hr]
    exact ⟨_, rfl⟩

theorem originLoop_returns (library : Library) (name : String) (hwf : library.Catalog.Origins.WF)
    (hc : Consistent library) :
    ∀ (origins : List (String × Origin)), (∀ o ∈ origins, o ∈ library.Catalog.Origins.entries) →
      (origins.filter (hasSource name)).length ≤ 1 →
      ∀ st : SynthState, st.templates = [] →
        ∃ st', originLoop library name origins st = .returned st'
  | [], _, _, st, _ => ⟨st, rfl⟩
  | o :: rest, hsub, hone, st, ht => by
    obtain ⟨st1, h1⟩ := processOrigin_returns library name hwf hc o
      (hsub o (List.mem_cons_self _ _)) st ht
    simp only [originLoop, h1]
    cases hs : o.2.Sources.get? name with
    | none =>
      have hst1 : st1 = st := by
        rcases processOrigin_spec library name o.1 o.2 st st1 h1 with ⟨_, h⟩ | ⟨h, _⟩
        · exact h
        · exact absurd hs h
      have hone' : (rest.filter (hasSource name)).length ≤ 1 := by
        have : hasSource name o = false := by simp [hasSource, hs]
        simpa [List.filter_cons, this] using hone
      rw [hst1]
      exact originLoop_returns library name hwf hc rest
        (fun o' ho' => hsub o' (List.mem_cons_of_mem _ ho')) hone' st ht
    | some source =>
      have hhas : hasSource name o = true := by simp [hasSource, hs]
      have hnil : rest.filter (hasSource name) = [] := by
        have : (rest.filter (hasSource name)).length = 0 := by
          simp only [List.filter_cons, hhas, if_true, List.length_cons] at hone
          omega
        exact List.length_eq_zero.1 this
      have hnone : ∀ o' ∈ rest, o'.2.Sources.get? name = none := by
        intro o' ho'
        have := List.filter_eq_nil_iff.1 hnil o' ho'
        simpa [hasSource] using this
      exact ⟨st1, originLoop_skip library name rest st1 hnone⟩

/-! ## Not-found and the name of the result -/

/-- C1 as stated fails: the origin `o1` of the catalog has the source `host1`, yet the call on a
library whose registry has no entry for `o1` neither reports not-found nor returns a collection:
it stops on the nil origin configuration of line 78.  The same happens on a library whose split
template has no compiled matcher (line 91). -/
theorem GetCollectionTemplate_unconfigured_panics :
    (∃ o ∈ unconfiguredLibrary.Catalog.Origins.entries, o.2.Sources.get? "host1" ≠ none) ∧
    GetCollectionTemplate unconfiguredLibrary "host1" = Outcome.panic ∧
    (¬ ∃ r, GetCollectionTemplate unconfiguredLibrary "host1" = Outcome.returned r) ∧
    (∃ o ∈ uncompiledLibrary.Catalog.Origins.entries, o.2.Sources.get? "host1" ≠ none) ∧
    GetCollectionTemplate uncompiledLibrary "host1" = Outcome.panic := by
  have hp : GetCollectionTemplate unconfiguredLibrary "host1" = Outcome.panic := by decide
  refine ⟨by decide, hp, ?_, by decide, by decide⟩
  rintro ⟨r, hr⟩
  rw [hp] at hr
  cases hr

/-- C1, amended: the call returns the not-found error and no collection if and only if no origin
of the catalog has a source called `name`; whenever it returns and some origin has the source, it
returns, without error, a collection whose `Name` is exactly `name`; and it does return when the
catalog and registry are consistent and at most one origin has the source. -/
theorem GetCollectionTemplate_notFound_iff (library : Library) (name : String) :
    (GetCollectionTemplate library name = Outcome.returned (none, some GoError.ErrNotExist) ↔
      ∀ o ∈ library.Catalog.Origins.entries, o.2.Sources.get? name = none) ∧
    (∀ r, GetCollectionTemplate library name = Outcome.returned r →
      (∃ o ∈ library.Catalog.Origins.entries, o.2.Sources.get? name ≠ none) →
      ∃ c, r = (some c, none) ∧ c.Item.Name = name) ∧
    (library.Catalog.Origins.WF → Consistent library →
      (library.Catalog.Origins.entries.filter (hasSource name)).length ≤ 1 →
      ∃ r, GetCollectionTemplate library name = Outcome.returned r) := by
  refine ⟨⟨?_, ?_⟩, ?_, ?_⟩
  · intro h
    obtain ⟨st, hl, hr⟩ := GetCollectionTemplate_returned library name _ h
    have hf := originLoop_found library name _ _ _ hl
    cases hfound : st.found with
    | true => simp [hfound] at hr
    | false =>
      intro o ho
      by_contra hne
      have : st.found = true := hf.2 (Or.inr ⟨o, ho, hne⟩)
      rw [hfound] at this
      cases this
  · intro h
    have hl := originLoop_skip library name library.Catalog.Origins.entries initialState h
    unfold GetCollectionTemplate
    unfold initialState at hl
    rw [hl]
    simp
  · intro r h hex
    obtain ⟨st, hl, hr⟩ := GetCollectionTemplate_returned library name _ h
    have hf := (originLoop_found library name _ _ _ hl).2 (Or.inr hex)
    rw [hf] at hr
    exact ⟨_, hr, rfl⟩
  · intro hwf hc hone
    obtain ⟨st, hst⟩ := originLoop_returns library name hwf hc library.Catalog.Origins.entries
      (fun _ h => h) hone initialState rfl
    unfold GetCollectionTemplate
    unfold initialState at hst
    simp only [hst]
    split
    · exact ⟨_, rfl⟩
    · exact ⟨_, rfl⟩

/-- C1, amended, at an example: on the consistent single-origin library the call returns. -/
theorem GetCollectionTemplate_notFound_iff_witness :
    sampleLibrary.Catalog.Origins.WF ∧ Consistent sampleLibrary ∧
    (sampleLibrary.Catalog.Origins.entries.filter (hasSource "host1")).length ≤ 1 ∧
    ∃ r, GetCollectionTemplate sampleLibrary "host1" = Outcome.returned r :=
  ⟨by decide, by decide, by decide,
    (GetCollectionTemplate_notFound_iff sampleLibrary "host1").2.2
      (by decide) (by decide) (by decide)⟩

/-! ## Entry IDs -/

theorem IDsOK_append (st : List CollectionEntry × Nat) (e : CollectionEntry)
    (he : e.ID = sprintfUnnamed st.2) (h : IDsOK st) : IDsOK (st.1 ++ [e], st.2 + 1) := by
  unfold IDsOK at *
  simp only [List.map_append, List.map_cons, List.map_nil, List.range_succ, h, he]

theorem splitLoop_ids (originName name templateName : String) (template : TemplateConfig) :
    ∀ (items : List String) (st : List CollectionEntry × Nat), IDsOK st →
      IDsOK (splitLoop originName name templateName template items st)
  | [], _, h => h
  | itemName :: rest, st, h => by
    rw [splitLoop]
    exact splitLoop_ids originName name templateName template rest _
      (IDsOK_append st _ rfl h)

theorem processTemplate_ids (library : Library) (originName name templateName : String)
    (st st' : List CollectionEntry × Nat)
    (h : processTemplate library originName name templateName st = .returned st')
    (hst : IDsOK st) : IDsOK st' := by
  unfold processTemplate at h
  cases hoc : library.Config.Origins.get? originName with
  | none => simp [hoc] at h
  | some originConfig =>
    cases ht : originConfig.Templates.get? templateName with
    | none => simp [hoc, ht] at h
    | some template =>
      simp only [hoc, ht] at h
      by_cases hsp : template.SplitPattern = ""
      · simp only [hsp, ne_eq, not_true_eq_false, if_false, Outcome.returned.injEq] at h
        rw [← h]
        exact IDsOK_append st _ rfl hst
      · simp only [ne_eq, hsp, not_false_eq_true, if_true] at h
        cases hm : metricNames library originName name with
        | panic => simp [hm] at h
        | returned metrics =>
          cases hs : scanMetrics template.SplitRegexp metrics GoSet.New with
          | panic => simp [hm, hs] at h
          | returned splitSet =>
            simp only [hm, hs, Outcome.returned.injEq] at h
            rw [← h]
            exact splitLoop_ids originName name templateName template _ st hst

theorem templateLoop_ids (library : Library) (originName name : String) :
    ∀ (templates : List String) (st st' : List CollectionEntry × Nat),
      templateLoop library originName name templates st = .returned st' → IDsOK st → IDsOK st'
  | [], st, st', h, hst => by
    simp only [templateLoop, Outcome.returned.injEq] at h
    exact h ▸ hst
  | templateName :: rest, st, st', h, hst => by
    simp only [templateLoop] at h
    cases hp : processTemplate library originName name templateName st with
    | panic => simp [hp] at h
    | returned st1 =>
      simp only [hp] at h
      exact templateLoop_ids library originName name rest st1 st' h
        (processTemplate_ids library originName name templateName st st1 hp hst)

theorem processOrigin_ids (library : Library) (name originName : String) (origin : Origin)
    (st st' : SynthState)
    (h : processOrigin library name originName origin st = .returned st')
    (hst : IDsOK (st.Entries, st.count)) : IDsOK (st'.Entries, st'.count) := by
  unfold processOrigin at h
  cases hs : origin.Sources.get? name with
  | none =>
    simp only [hs, Outcome.returned.injEq] at h
    exact h ▸ hst
  | some source =>
    simp only [hs] at h
    cases hoc : library.Config.Origins.get? originName with
    | none => simp [hoc] at h
    | some originConfig =>
      simp only [hoc] at h
      cases ht : templateLoop library originName name
          (sortStrings (st.templates ++ originConfig.Templates.keys)) (st.Entries, st.count) with
      | panic => simp [ht] at h
      | returned r =>
        simp only [ht, Outcome.returned.injEq] at h
        rw [← h]
        exact templateLoop_ids library originName name _ _ _ ht hst

theorem originLoop_ids (library : Library) (name : String) :
    ∀ (origins : List (String × Origin)) (st st' : SynthState),
      originLoop library name origins st = .returned st' →
      IDsOK (st.Entries, st.count) → IDsOK (st'.Entries, st'.count)
  | [], st, st', h, hst => by
    simp only [originLoop, Outcome.returned.injEq] at h
    exact h ▸ hst
  | o :: rest, st, st', h, hst => by
    simp only [originLoop] at h
    cases hp : processOrigin library name o.1 o.2 st with
    | panic => simp [hp] at h
    | returned st1 =>
      simp only [hp] at h
      exact originLoop_ids library name rest st1 st' h
        (processOrigin_ids library name o.1 o.2 st st1 hp hst)

theorem GetCollectionTemplate_ids (library : Library) (name : String) (c : Collection)
    (err : Option GoError) (h : GetCollectionTemplate library name = .returned (some c, err)) :
    c.Entries.map (fun e => e.ID) = (List.range c.Entries.length).map sprintfUnnamed := by
  obtain ⟨st, hl, hr⟩ := GetCollectionTemplate_returned library name _ h
  cases hf : st.found with
  | false => simp [hf] at hr
  | true =>
    simp only [hf, if_true, Prod.mk.injEq, Option.some.injEq] at hr
    have hE : c.Entries = st.Entries := by rw [hr.1]
    have hids : IDsOK (st.Entries, st.count) :=
      originLoop_ids library name _ _ _ hl (by simp [IDsOK, initialState])
    unfold IDsOK at hids
    simp only at hids
    have hlen : st.Entries.length = st.count := by
      have := congrArg List.length hids
      simpa using this
    rw [hE, hlen]
    exact hids

/-- C3: for every successful call, the entry at 0-based position `k` of the returned entries has
the ID `unnamed` followed by the decimal rendering of `k`, across all origins and templates
processed in the call; consequently the entry IDs of one result are pairwise distinct. -/
theorem GetCollectionTemplate_entry_ids (library : Library) (name : String) (c : Collection)
    (h : GetCollectionTemplate library name = Outcome.returned (some c, none)) :
    (∀ (k : Nat) (hk : k < c.Entries.length),
      (c.Entries.get ⟨k, hk⟩).ID = "unnamed" ++ Nat.repr k) ∧
    (c.Entries.map (fun e => e.ID)).Nodup := by
  have hids := GetCollectionTemplate_ids library name c none h
  constructor
  · intro k hk
    have h1 : (c.Entries.map (fun e => e.ID))[k]? = some (sprintfUnnamed k) := by
      rw [hids]
      simp [List.getElem?_map, List.getElem?_range hk]
    simp only [List.getElem?_map, List.getElem?_eq_getElem hk, Option.map_some',
      Option.some.injEq] at h1
    exact h1
  · rw [hids]
    exact (List.nodup_range _).map sprintfUnnamed_injective

/-- C3 at an example: the three entries synthesised for `host1` in the sample library. -/
theorem GetCollectionTemplate_entry_ids_witness :
    ∃ c, GetCollectionTemplate sampleLibrary "host1" = Outcome.returned (some c, none) ∧
      c.Entries.length = 3 ∧
      (∀ (k : Nat) (hk : k < c.Entries.length),
        (c.Entries.get ⟨k, hk⟩).ID = "unnamed" ++ Nat.repr k) ∧
      (c.Entries.map (fun e => e.ID)).Nodup :=
  ⟨_, rfl, rfl, GetCollectionTemplate_entry_ids sampleLibrary "host1" _ rfl⟩

/-! ## Several origins with the same source -/

/-- C2 at a failing input: both origins have the source `host1` and one plain template `t1`
each.  The slice `templates` is not emptied between origins, so the second origin processed
visits `t1` twice and the result holds two entries with origin `o2` and template `t1`, where the
claim promises exactly one. -/
theorem GetCollectionTemplate_duplicates_template :
    resultSummary (GetCollectionTemplate ⟨twoOriginCatalog, sharedNameConfig⟩ "host1") =
      some [("unnamed0", "o1", "t1"), ("unnamed1", "o2", "t1"), ("unnamed2", "o2", "t1")] ∧
    twoOriginCatalog.Origins.WF ∧ sharedNameConfig.Origins.WF ∧
    (∀ oc ∈ sharedNameConfig.Origins.entries, oc.2.Templates.WF) := by
  decide

/-- C7 at a failing input: the two catalogs hold the same origins and differ only in the order in
which the origin map is enumerated, yet the returned entry sequences differ. -/
theorem GetCollectionTemplate_depends_on_origin_order :
    twoOriginCatalog.Origins.entries.Perm twoOriginCatalogSwapped.Origins.entries ∧
    resultSummary (GetCollectionTemplate ⟨twoOriginCatalog, sharedNameConfig⟩ "host1") =
      some [("unnamed0", "o1", "t1"), ("unnamed1", "o2", "t1"), ("unnamed2", "o2", "t1")] ∧
    resultSummary (GetCollectionTemplate ⟨twoOriginCatalogSwapped, sharedNameConfig⟩ "host1") =
      some [("unnamed0", "o2", "t1"), ("unnamed1", "o1", "t1"), ("unnamed2", "o1", "t1")] ∧
    GetCollectionTemplate ⟨twoOriginCatalog, sharedNameConfig⟩ "host1" ≠
      GetCollectionTemplate ⟨twoOriginCatalogSwapped, sharedNameConfig⟩ "host1" := by
  refine ⟨?_, by decide, by decide, by decide⟩
  exact List.Perm.swap _ _ _

/-- C8 at a failing input: the precondition holds (every origin has a registry entry, no template
has a split pattern), the two origins that have the source carry different template names, and
the call panics in either enumeration order: the second origin processed looks up a template
name of the first one, which its own template set lacks. -/
theorem GetCollectionTemplate_panics_on_foreign_template :
    Consistent ⟨twoOriginCatalog, distinctNameConfig⟩ ∧
    twoOriginCatalog.Origins.WF ∧ distinctNameConfig.Origins.WF ∧
    GetCollectionTemplate ⟨twoOriginCatalog, distinctNameConfig⟩ "host1" = Outcome.panic ∧
    GetCollectionTemplate ⟨twoOriginCatalogSwapped, distinctNameConfig⟩ "host1" = Outcome.panic := by
  decide

/-! ## The options of the emitted entries -/

theorem GetCollectionTemplate_sample :
    GetCollectionTemplate sampleLibrary "host1" = Outcome.returned (some sampleResult, none) := by
  decide

theorem freshOptions_get? (template : TemplateConfig) (key : String) :
    (freshOptions template).get? key = (defaultOptions template).get? key := by
  unfold freshOptions defaultOptions
  cases template.Options with
  | none => rfl
  | some o => rfl

theorem Replace1_empty (old new : String) (h : old ≠ "") : Replace1 "" old new = "" := by
  have hd : old.data ≠ [] := fun hnil => h (String.ext hnil)
  unfold Replace1
  apply String.ext
  show replaceFirstChars old.data new.data [] = []
  cases hdata : old.data with
  | nil => exact absurd hdata hd
  | cons a l => simp [replaceFirstChars]

theorem plainEntry_options (originName name templateName : String) (template : TemplateConfig)
    (count : Nat) (key : String) :
    (plainEntry originName name templateName template count).Options.get? key =
      plainOptionsSpec (defaultOptions template) originName name templateName key := by
  simp only [plainEntry, plainOptionsSpec, GoMap.get?_set, freshOptions_get?]
  by_cases h1 : key = "origin"
  · subst h1
    simp
  · by_cases h2 : key = "source"
    · subst h2
      simp
    · by_cases h3 : key = "template"
      · subst h3
        simp
      · simp [h1, h2, h3]

theorem splitEntry_options (originName name templateName : String) (template : TemplateConfig)
    (itemName : String) (count : Nat) (key : String) :
    (splitEntry originName name templateName template itemName count).Options.get? key =
      splitOptionsSpec (defaultOptions template) originName name templateName itemName key := by
  have htitle : ((((((freshOptions template).set "origin" originName).set "source" name).set
      "template" templateName).set "filter" itemName).index "title")
        = ((defaultOptions template).get? "title").getD "" := by
    simp [GoMap.index, GoMap.get?_set, freshOptions_get?]
  simp only [splitEntry, htitle, splitOptionsSpec]
  cases ht : (defaultOptions template).get? "title" with
  | none =>
    simp only [Option.getD_none, ne_eq, not_true_eq_false, if_false, GoMap.get?_set,
      freshOptions_get?, Option.map_none']
    by_cases h5 : key = "title"
    · subst h5
      simp [ht]
    · by_cases h1 : key = "origin"
      · subst h1
        simp
      · by_cases h2 : key = "source"
        · subst h2
          simp
        · by_cases h3 : key = "template"
          · subst h3
            simp
          · by_cases h4 : key = "filter"
            · subst h4
              simp
            · simp [h1, h2, h3, h4, h5]
  | some title =>
    simp only [Option.getD_some, Option.map_some']
    by_cases hempty : title = ""
    · subst hempty
      simp only [ne_eq, not_true_eq_false, if_false, GoMap.get?_set, freshOptions_get?,
        Replace1_empty "%s" itemName (by decide)]
      by_cases h5 : key = "title"
      · subst h5
        simp [ht]
      · by_cases h1 : key = "origin"
        · subst h1
          simp
        · by_cases h2 : key = "source"
          · subst h2
            simp
          · by_cases h3 : key = "template"
            · subst h3
              simp
            · by_cases h4 : key = "filter"
              · subst h4
                simp
              · simp [h1, h2, h3, h4, h5]
    · simp only [ne_eq, hempty, not_false_eq_true, if_true, GoMap.get?_set, freshOptions_get?]
      by_cases h5 : key = "title"
      · subst h5
        simp
      · by_cases h1 : key = "origin"
        · subst h1
          simp
        · by_cases h2 : key = "source"
          · subst h2
            simp
          · by_cases h3 : key = "template"
            · subst h3
              simp
            · by_cases h4 : key = "filter"
              · subst h4
                simp
              · simp [h1, h2, h3, h4, h5]

theorem Emitted.cases {library : Library} {name : String} {e : CollectionEntry}
    (h : Emitted library name e) :
    ∃ originName templateName originConfig template,
      library.Config.Origins.get? originName = some originConfig ∧
      originConfig.Templates.get? templateName = some template ∧
      ((template.SplitPattern = "" ∧
          ∃ count, e = plainEntry originName name templateName template count) ∨
       (template.SplitPattern ≠ "" ∧
          ∃ itemName count, e = splitEntry originName name templateName template itemName count)) := by
  obtain ⟨o, _, _, templateName, new, ⟨originConfig, template, hoc, ht, hcase⟩, hmem⟩ := h
  refine ⟨o.1, templateName, originConfig, template, hoc, ht, ?_⟩
  rcases hcase with ⟨hsp, count, hnew⟩ | ⟨hsp, _, _, _, _, hall⟩
  · rw [hnew] at hmem
    exact Or.inl ⟨hsp, count, List.mem_singleton.1 hmem⟩
  · obtain ⟨itemName, _, count, he⟩ := forall₂_exists_of_mem_right hall hmem
    exact Or.inr ⟨hsp, itemName, count, he⟩

/-- C4: every entry of a returned collection belongs to a template `templateName` of an origin
`originName` of the registry, both recorded in its options; when that template has a split
pattern, the entry's options are the template's default option set overridden with
`origin`, `source = name`, `template` and `filter = v` for the captured value `v`, the title
(when the defaults carry one) being the default title with its first `%s` replaced by `v`, and
every other default key kept unchanged. -/
theorem GetCollectionTemplate_split_options (library : Library) (name : String) (c : Collection)
    (h : GetCollectionTemplate library name = Outcome.returned (some c, none))
    (e : CollectionEntry) (he : e ∈ c.Entries) :
    ∃ originName templateName originConfig template,
      library.Config.Origins.get? originName = some originConfig ∧
      originConfig.Templates.get? templateName = some template ∧
      e.Options.get? "origin" = some originName ∧
      e.Options.get? "template" = some templateName ∧
      (template.SplitPattern ≠ "" →
        ∃ value, e.Options.get? "filter" = some value ∧
          ∀ key, e.Options.get? key =
            splitOptionsSpec (defaultOptions template) originName name templateName value key) := by
  obtain ⟨originName, templateName, originConfig, template, hoc, ht, hcase⟩ :=
    (GetCollectionTemplate_emitted library name c none h e he).cases
  refine ⟨originName, templateName, originConfig, template, hoc, ht, ?_⟩
  rcases hcase with ⟨hsp, count, rfl⟩ | ⟨hsp, itemName, count, rfl⟩
  · refine ⟨?_, ?_, fun hne => absurd hsp hne⟩
    · rw [plainEntry_options]
      simp [plainOptionsSpec]
    · rw [plainEntry_options]
      simp [plainOptionsSpec]
  · refine ⟨?_, ?_, fun _ => ⟨itemName, ?_, fun key => splitEntry_options _ _ _ _ _ _ key⟩⟩
    · rw [splitEntry_options]
      simp [splitOptionsSpec]
    · rw [splitEntry_options]
      simp [splitOptionsSpec]
    · rw [splitEntry_options]
      simp [splitOptionsSpec]

/-- C4 at an example: the entry `unnamed1` of the sample result, emitted for the split template
`t1` at the captured value `0`. -/
theorem GetCollectionTemplate_split_options_witness :
    GetCollectionTemplate sampleLibrary "host1" = Outcome.returned (some sampleResult, none) ∧
    sampleEntry1 ∈ sampleResult.Entries ∧
    ∃ originName templateName originConfig template,
      sampleLibrary.Config.Origins.get? originName = some originConfig ∧
      originConfig.Templates.get? templateName = some template ∧
      sampleEntry1.Options.get? "origin" = some originName ∧
      sampleEntry1.Options.get? "template" = some templateName ∧
      (template.SplitPattern ≠ "" →
        ∃ value, sampleEntry1.Options.get? "filter" = some value ∧
          ∀ key, sampleEntry1.Options.get? key =
            splitOptionsSpec (defaultOptions template) originName "host1" templateName value key) :=
  ⟨by decide, by decide,
    GetCollectionTemplate_split_options sampleLibrary "host1" sampleResult (by decide)
      sampleEntry1 (by decide)⟩

/-- C5: every entry of a returned collection belongs to a template `templateName` of an origin
`originName` of the registry, both recorded in its options; when that template has no split
pattern, the entry's options are the template's default option set overridden with `origin`,
`source = name` and `template`: no `filter` key is added and the title is the default title,
verbatim. -/
theorem GetCollectionTemplate_plain_options (library : Library) (name : String) (c : Collection)
    (h : GetCollectionTemplate library name = Outcome.returned (some c, none))
    (e : CollectionEntry) (he : e ∈ c.Entries) :
    ∃ originName templateName originConfig template,
      library.Config.Origins.get? originName = some originConfig ∧
      originConfig.Templates.get? templateName = some template ∧
      e.Options.get? "origin" = some originName ∧
      e.Options.get? "template" = some templateName ∧
      (template.SplitPattern = "" →
        (∀ key, e.Options.get? key =
          plainOptionsSpec (defaultOptions template) originName name templateName key) ∧
        e.Options.get? "filter" = (defaultOptions template).get? "filter" ∧
        e.Options.get? "title" = (defaultOptions template).get? "title") := by
  obtain ⟨originName, templateName, originConfig, template, hoc, ht, hcase⟩ :=
    (GetCollectionTemplate_emitted library name c none h e he).cases
  refine ⟨originName, templateName, originConfig, template, hoc, ht, ?_⟩
  rcases hcase with ⟨hsp, count, rfl⟩ | ⟨hsp, itemName, count, rfl⟩
  · refine ⟨?_, ?_, fun _ => ⟨fun key => plainEntry_options _ _ _ _ _ key, ?_, ?_⟩⟩
    · rw [plainEntry_options]
      simp [plainOptionsSpec]
    · rw [plainEntry_options]
      simp [plainOptionsSpec]
    · rw [plainEntry_options]
      simp [plainOptionsSpec]
    · rw [plainEntry_options]
      simp [plainOptionsSpec]
  · refine ⟨?_, ?_, fun he => absurd he hsp⟩
    · rw [splitEntry_options]
      simp [splitOptionsSpec]
    · rw [splitEntry_options]
      simp [splitOptionsSpec]

/-- C5 at an example: the entry `unnamed0` of the sample result, emitted for the plain template
`t0`. -/
theorem GetCollectionTemplate_plain_options_witness :
    GetCollectionTemplate sampleLibrary "host1" = Outcome.returned (some sampleResult, none) ∧
    sampleEntry0 ∈ sampleResult.Entries ∧
    ∃ originName templateName originConfig template,
      sampleLibrary.Config.Origins.get? originName = some originConfig ∧
      originConfig.Templates.get? templateName = some template ∧
      sampleEntry0.Options.get? "origin" = some originName ∧
      sampleEntry0.Options.get? "template" = some templateName ∧
      (template.SplitPattern = "" →
        (∀ key, sampleEntry0.Options.get? key =
          plainOptionsSpec (defaultOptions template) originName "host1" templateName key) ∧
        sampleEntry0.Options.get? "filter" = (defaultOptions template).get? "filter" ∧
        sampleEntry0.Options.get? "title" = (defaultOptions template).get? "title") :=
  ⟨by decide, by decide,
    GetCollectionTemplate_plain_options sampleLibrary "host1" sampleResult (by decide)
      sampleEntry0 (by decide)⟩

/-! ## The order of the entries -/

theorem strLE_iff_le (a b : String) : strLE a b ↔ a ≤ b := String.le_iff_toList_le.symm

theorem sortStrings_sorted (l : List String) : (sortStrings l).Pairwise (fun a b => a ≤ b) := by
  haveI : IsTotal String strLE := ⟨fun a b => by
    simp only [strLE_iff_le]
    exact le_total a b⟩
  haveI : IsTrans String strLE := ⟨fun a b c hab hbc => by
    simp only [strLE_iff_le] at *
    exact le_trans hab hbc⟩
  have h := List.sorted_insertionSort strLE l
  exact List.Pairwise.imp (fun hab => (strLE_iff_le _ _).1 hab) h

theorem sortStrings_strict (l : List String) (h : l.Nodup) :
    (sortStrings l).Pairwise (fun a b => a < b) := by
  have hnd : (sortStrings l).Nodup := (List.perm_insertionSort strLE l).nodup_iff.2 h
  exact List.Sorted.lt_of_le (sortStrings_sorted l) hnd

theorem sortStrings_perm {l₁ l₂ : List String} (h : l₁.Perm l₂) :
    sortStrings l₁ = sortStrings l₂ := by
  have hp : (sortStrings l₁).Perm (sortStrings l₂) :=
    ((List.perm_insertionSort strLE l₁).trans h).trans (List.perm_insertionSort strLE l₂).symm
  exact List.eq_of_perm_of_sorted hp (sortStrings_sorted l₁) (sortStrings_sorted l₂)

theorem templateFilter_splitEntry (originName name templateName : String)
    (template : TemplateConfig) (itemName : String) (count : Nat) :
    templateFilter (splitEntry originName name templateName template itemName count)
      = (templateName, itemName) := by
  simp [templateFilter, GoMap.index, splitEntry_options, splitOptionsSpec]

theorem templateFilter_plainEntry (originName name templateName : String)
    (template : TemplateConfig) (count : Nat) :
    (templateFilter (plainEntry originName name templateName template count)).1
      = templateName := by
  simp [templateFilter, GoMap.index, plainEntry_options, plainOptionsSpec]

theorem map_templateFilter_split (originName name templateName : String)
    (template : TemplateConfig) {items : List String} {new : List CollectionEntry}
    (h : List.Forall₂
      (fun itemName e =>
        ∃ count, e = splitEntry originName name templateName template itemName count)
      items new) :
    new.map templateFilter = items.map (fun v => (templateName, v)) := by
  induction h with
  | nil => rfl
  | cons hr _ ih =>
    obtain ⟨count, rfl⟩ := hr
    simp only [List.map_cons, ih, templateFilter_splitEntry]

theorem TemplateEmits.sorted {library : Library} {originName name templateName : String}
    {new : List CollectionEntry} (h : TemplateEmits library originName name templateName new) :
    (∀ p ∈ new.map templateFilter, p.1 = templateName) ∧
    (new.map templateFilter).Pairwise pairLE := by
  obtain ⟨originConfig, template, _, _, hcase⟩ := h
  rcases hcase with ⟨_, count, rfl⟩ | ⟨_, _, splitSet, _, _, hall⟩
  · constructor
    · intro p hp
      simp only [List.map_cons, List.map_nil, List.mem_singleton] at hp
      rw [hp, templateFilter_plainEntry]
    · simp
  · rw [map_templateFilter_split originName name templateName template hall]
    constructor
    · intro p hp
      obtain ⟨v, _, rfl⟩ := List.mem_map.1 hp
      rfl
    · rw [List.pairwise_map]
      exact List.Pairwise.imp (fun hab => Or.inr ⟨rfl, hab⟩)
        (sortStrings_sorted splitSet.StringSlice)

theorem blocks_sorted {library : Library} {originName name : String}
    {templates : List String} {blocks : List (List CollectionEntry)}
    (h : List.Forall₂ (TemplateEmits library originName name) templates blocks) :
    templates.Pairwise (fun a b => a < b) →
    (∀ p ∈ blocks.flatten.map templateFilter, p.1 ∈ templates) ∧
    (blocks.flatten.map templateFilter).Pairwise pairLE := by
  induction h with
  | nil =>
    intro _
    simp
  | @cons templateName new rest restBlocks hemit _ ih =>
    intro hs
    obtain ⟨hlt, hrest⟩ := List.pairwise_cons.1 hs
    obtain ⟨hmem, hsorted⟩ := ih hrest
    obtain ⟨hname, hblock⟩ := hemit.sorted
    simp only [List.flatten_cons, List.map_append]
    constructor
    · intro p hp
      rcases List.mem_append.1 hp with h1 | h1
      · rw [hname p h1]
        exact List.mem_cons_self _ _
      · exact List.mem_cons_of_mem _ (hmem p h1)
    · refine List.pairwise_append.2 ⟨hblock, hsorted, ?_⟩
      intro p hp q hq
      left
      rw [hname p hp]
      exact hlt _ (hmem q hq)

theorem originLoop_single (library : Library) (name : String) :
    ∀ (origins : List (String × Origin)) (st : SynthState),
      (origins.filter (hasSource name)).length = 1 →
      ∃ o ∈ origins, o.2.Sources.get? name ≠ none ∧
        originLoop library name origins st = processOrigin library name o.1 o.2 st
  | [], _, h => by simp at h
  | o :: rest, st, h => by
    cases hs : o.2.Sources.get? name with
    | none =>
      have hno : hasSource name o = false := by simp [hasSource, hs]
      have h' : (rest.filter (hasSource name)).length = 1 := by
        simpa [List.filter_cons, hno] using h
      obtain ⟨o', ho', hs', heq⟩ := originLoop_single library name rest st h'
      refine ⟨o', List.mem_cons_of_mem _ ho', hs', ?_⟩
      rw [← heq]
      simp only [originLoop, processOrigin, hs]
    | some source =>
      have hhas : hasSource name o = true := by simp [hasSource, hs]
      have hnil : rest.filter (hasSource name) = [] := by
        have : (rest.filter (hasSource name)).length = 0 := by
          simp only [List.filter_cons, hhas, if_true, List.length_cons] at h
          omega
        exact List.length_eq_zero.1 this
      have hnone : ∀ o' ∈ rest, o'.2.Sources.get? name = none := by
        intro o' ho'
        have := List.filter_eq_nil_iff.1 hnil o' ho'
        simpa [hasSource] using this
      refine ⟨o, List.mem_cons_self _ _, by simp [hs], ?_⟩
      simp only [originLoop]
      cases hp : processOrigin library name o.1 o.2 st with
      | panic => rfl
      | returned st1 => exact originLoop_skip library name rest st1 hnone

/-- C6: when exactly one origin of the catalog has the source (and the template maps of the
registry bind each name once, as Go maps do), the entries of a returned collection are ordered by
template name ascending and, within one template, by captured value ascending: the sequence of
(template, filter) pairs read off the result is sorted lexicographically. -/
theorem GetCollectionTemplate_sorted (library : Library) (name : String) (c : Collection)
    (hwf : ∀ oc ∈ library.Config.Origins.entries, oc.2.Templates.WF)
    (hone : (library.Catalog.Origins.entries.filter (hasSource name)).length = 1)
    (h : GetCollectionTemplate library name = Outcome.returned (some c, none)) :
    (c.Entries.map templateFilter).Pairwise pairLE := by
  obtain ⟨st, hl, hr⟩ := GetCollectionTemplate_returned library name _ h
  obtain ⟨o, _, _, hsingle⟩ := originLoop_single library name _ initialState hone
  rw [hsingle] at hl
  cases hf : st.found with
  | false => simp [hf] at hr
  | true =>
    simp only [hf, if_true, Prod.mk.injEq, Option.some.injEq] at hr
    have hE : c.Entries = st.Entries := by rw [hr.1]
    rw [hE]
    rcases processOrigin_spec library name o.1 o.2 initialState st hl with
      ⟨_, heq⟩ | ⟨_, originConfig, blocks, hoc, hall, heq⟩
    · rw [heq]
      simp [initialState]
    · have hnd : originConfig.Templates.keys.Nodup := hwf _ (GoMap.get?_mem _ _ _ hoc)
      have hstrict := sortStrings_strict _ hnd
      simp only [initialState, List.nil_append] at hall heq
      rw [heq]
      simpa using (blocks_sorted hall hstrict).2

/-- C6 at an example: the sample library, whose single origin has the plain template `t0` and the
split template `t1`. -/
theorem GetCollectionTemplate_sorted_witness :
    (∀ oc ∈ sampleLibrary.Config.Origins.entries, oc.2.Templates.WF) ∧
    (sampleLibrary.Catalog.Origins.entries.filter (hasSource "host1")).length = 1 ∧
    GetCollectionTemplate sampleLibrary "host1" = Outcome.returned (some sampleResult, none) ∧
    (sampleResult.Entries.map templateFilter).Pairwise pairLE :=
  ⟨by decide, by decide, by decide,
    GetCollectionTemplate_sorted sampleLibrary "host1" sampleResult (by decide) (by decide)
      (by decide)⟩

/-! ## Algebraic facts about FilterCollection -/

theorem FilterCollection_eq (toLower : String → String) (c : Collection) (s : String)
    (hs : s ≠ "") :
    FilterCollection toLower c s =
      some { c with Entries := c.Entries.filter (keepEntry toLower s) } := by
  simp only [FilterCollection, hs, if_false, filterLoop_eq, List.nil_append]

theorem keepEntry_congr (toLower : String → String) (s t : String)
    (h : toLower s = toLower t) : keepEntry toLower s = keepEntry toLower t := by
  funext e
  simp only [keepEntry, h]

theorem keepEntry_mono (toLower : String → String) (s t : String)
    (h : (toLower s).data <:+: (toLower t).data) (e : CollectionEntry)
    (ht : keepEntry toLower t e = true) : keepEntry toLower s e = true := by
  rw [keepEntry_iff] at ht ⊢
  obtain ⟨title, htitle, hin⟩ := ht
  exact ⟨title, htitle, List.IsInfix.trans h hin⟩

/-- C16: the filter string is compared case-insensitively: for every collection and non-empty
strings `s` and `t` with the same lower-casing, filtering by `s` and filtering by `t` return the
same collection, in particular the same entry sequence. -/
theorem FilterCollection_case_insensitive (toLower : String → String) (c : Collection)
    (s t : String) (hs : s ≠ "") (ht : t ≠ "") (h : toLower s = toLower t) :
    FilterCollection toLower c s = FilterCollection toLower c t ∧
    ∃ r₁ r₂, FilterCollection toLower c s = some r₁ ∧ FilterCollection toLower c t = some r₂ ∧
      r₁.Entries = r₂.Entries := by
  rw [FilterCollection_eq toLower c s hs, FilterCollection_eq toLower c t ht,
    keepEntry_congr toLower s t h]
  exact ⟨rfl, _, _, rfl, rfl, rfl⟩

/-- C16 at an example: the filters `"CPU"` and `"cpu"` on the sample collection. -/
theorem FilterCollection_case_insensitive_witness :
    "CPU" ≠ "" ∧ "cpu" ≠ "" ∧ asciiLower "CPU" = asciiLower "cpu" ∧
    FilterCollection asciiLower sampleCollection "CPU"
      = FilterCollection asciiLower sampleCollection "cpu" ∧
    ∃ r₁ r₂, FilterCollection asciiLower sampleCollection "CPU" = some r₁ ∧
      FilterCollection asciiLower sampleCollection "cpu" = some r₂ ∧ r₁.Entries = r₂.Entries :=
  ⟨by decide, by decide, by decide,
    FilterCollection_case_insensitive asciiLower sampleCollection "CPU" "cpu"
      (by decide) (by decide) (by decide)⟩

/-- C18: filtering is idempotent: for every collection and non-empty filter string, filtering the
result again with the same string returns a collection with the same entries and the same
metadata. -/
theorem FilterCollection_idempotent (toLower : String → String) (c : Collection) (s : String)
    (hs : s ≠ "") :
    ∃ r, FilterCollection toLower c s = some r ∧ FilterCollection toLower r s = some r := by
  refine ⟨_, FilterCollection_eq toLower c s hs, ?_⟩
  rw [FilterCollection_eq toLower _ s hs]
  simp only [List.filter_filter, Bool.and_self]

/-- C18 at an example: the filter `"cpu"` on the sample collection. -/
theorem FilterCollection_idempotent_witness :
    "cpu" ≠ "" ∧ ∃ r, FilterCollection asciiLower sampleCollection "cpu" = some r ∧
      FilterCollection asciiLower r "cpu" = some r :=
  ⟨by decide, FilterCollection_idempotent asciiLower sampleCollection "cpu" (by decide)⟩

/-- C19: filtering is anti-monotone in the filter string: for every collection and non-empty
strings `s` and `t` such that the lower-cased `s` is a substring of the lower-cased `t`, the
entries kept by `t` form a sub-sequence of the entries kept by `s` (so every entry kept by `t` is
kept by `s`), and both are sub-sequences of the entries of the collection. -/
theorem FilterCollection_antitone (toLower : String → String) (c : Collection) (s t : String)
    (hs : s ≠ "") (ht : t ≠ "") (h : (toLower s).data <:+: (toLower t).data) :
    ∃ rs rt, FilterCollection toLower c s = some rs ∧ FilterCollection toLower c t = some rt ∧
      rt.Entries.Sublist rs.Entries ∧ (∀ e ∈ rt.Entries, e ∈ rs.Entries) ∧
      rs.Entries.Sublist c.Entries ∧ rt.Entries.Sublist c.Entries := by
  have hsub : (c.Entries.filter (keepEntry toLower t)).Sublist
      (c.Entries.filter (keepEntry toLower s)) := by
    have heq : c.Entries.filter (keepEntry toLower t)
        = (c.Entries.filter (keepEntry toLower s)).filter (keepEntry toLower t) := by
      rw [List.filter_filter]
      apply List.filter_congr
      intro e _
      cases hk : keepEntry toLower t e with
      | false => rfl
      | true => simp [keepEntry_mono toLower s t h e hk]
    rw [heq]
    exact List.filter_sublist _
  exact ⟨_, _, FilterCollection_eq toLower c s hs, FilterCollection_eq toLower c t ht, hsub,
    fun e he => hsub.subset he, List.filter_sublist _, List.filter_sublist _⟩

/-- C19 at an example: the filters `"cpu"` and `"cpu g"` on the sample collection. -/
theorem FilterCollection_antitone_witness :
    "cpu" ≠ "" ∧ "cpu g" ≠ "" ∧ (asciiLower "cpu").data <:+: (asciiLower "cpu g").data ∧
    ∃ rs rt, FilterCollection asciiLower sampleCollection "cpu" = some rs ∧
      FilterCollection asciiLower sampleCollection "cpu g" = some rt ∧
      rt.Entries.Sublist rs.Entries ∧ (∀ e ∈ rt.Entries, e ∈ rs.Entries) ∧
      rs.Entries.Sublist sampleCollection.Entries ∧
      rt.Entries.Sublist sampleCollection.Entries :=
  ⟨by decide, by decide, by decide,
    FilterCollection_antitone asciiLower sampleCollection "cpu" "cpu g"
      (by decide) (by decide) (by decide)⟩

/-! ## The keys every entry carries -/

theorem Emitted.provenance {library : Library} {name : String} {e : CollectionEntry}
    (h : Emitted library name e) :
    ∃ originName origin originConfig templateName template,
      (originName, origin) ∈ library.Catalog.Origins.entries ∧
      origin.Sources.get? name ≠ none ∧
      library.Config.Origins.get? originName = some originConfig ∧
      originConfig.Templates.get? templateName = some template ∧
      ((template.SplitPattern = "" ∧
          ∃ count, e = plainEntry originName name templateName template count) ∨
       (template.SplitPattern ≠ "" ∧ ∃ metrics splitSet itemName count,
          metricNames library originName name = .returned metrics ∧
          scanMetrics template.SplitRegexp metrics GoSet.New = .returned splitSet ∧
          itemName ∈ splitSet.StringSlice ∧
          e = splitEntry originName name templateName template itemName count)) := by
  obtain ⟨o, ho, hs, templateName, new, ⟨originConfig, template, hoc, ht, hcase⟩, hmem⟩ := h
  refine ⟨o.1, o.2, originConfig, templateName, template, ho, hs, hoc, ht, ?_⟩
  rcases hcase with ⟨hsp, count, hnew⟩ | ⟨hsp, metrics, splitSet, hm, hscan, hall⟩
  · rw [hnew] at hmem
    exact Or.inl ⟨hsp, count, List.mem_singleton.1 hmem⟩
  · obtain ⟨itemName, hitem, count, he⟩ := forall₂_exists_of_mem_right hall hmem
    exact Or.inr ⟨hsp, metrics, splitSet, itemName, count, hm, hscan,
      (mem_sortStrings _ _).1 hitem, he⟩

/-- C12: every entry of a returned collection has the options `origin`, `source` and `template`,
where `source` is the requested name, `origin` names an origin of the catalog that has the
source, and `template` names a template configured for that same origin; and the entry has a
`filter` option whenever that template has a split pattern. -/
theorem GetCollectionTemplate_entry_keys (library : Library) (name : String) (c : Collection)
    (h : GetCollectionTemplate library name = Outcome.returned (some c, none))
    (e : CollectionEntry) (he : e ∈ c.Entries) :
    ∃ originName origin originConfig templateName template,
      e.Options.get? "origin" = some originName ∧
      e.Options.get? "source" = some name ∧
      e.Options.get? "template" = some templateName ∧
      (originName, origin) ∈ library.Catalog.Origins.entries ∧
      origin.Sources.get? name ≠ none ∧
      library.Config.Origins.get? originName = some originConfig ∧
      originConfig.Templates.get? templateName = some template ∧
      (template.SplitPattern ≠ "" → ∃ value, e.Options.get? "filter" = some value) := by
  obtain ⟨originName, origin, originConfig, templateName, template, ho, hs, hoc, ht, hcase⟩ :=
    (GetCollectionTemplate_emitted library name c none h e he).provenance
  refine ⟨originName, origin, originConfig, templateName, template, ?_, ?_, ?_, ho, hs, hoc, ht, ?_⟩
  · rcases hcase with ⟨_, count, rfl⟩ | ⟨_, _, _, itemName, count, _, _, _, rfl⟩
    · simp [plainEntry_options, plainOptionsSpec]
    · simp [splitEntry_options, splitOptionsSpec]
  · rcases hcase with ⟨_, count, rfl⟩ | ⟨_, _, _, itemName, count, _, _, _, rfl⟩
    · simp [plainEntry_options, plainOptionsSpec]
    · simp [splitEntry_options, splitOptionsSpec]
  · rcases hcase with ⟨_, count, rfl⟩ | ⟨_, _, _, itemName, count, _, _, _, rfl⟩
    · simp [plainEntry_options, plainOptionsSpec]
    · simp [splitEntry_options, splitOptionsSpec]
  · intro hsplit
    rcases hcase with ⟨hsp, _⟩ | ⟨_, _, _, itemName, count, _, _, _, rfl⟩
    · exact absurd hsp hsplit
    · exact ⟨itemName, by simp [splitEntry_options, splitOptionsSpec]⟩

/-- C12 at an example: the entry `unnamed2` of the sample result. -/
theorem GetCollectionTemplate_entry_keys_witness :
    GetCollectionTemplate sampleLibrary "host1" = Outcome.returned (some sampleResult, none) ∧
    sampleEntry2 ∈ sampleResult.Entries ∧
    ∃ originName origin originConfig templateName template,
      sampleEntry2.Options.get? "origin" = some originName ∧
      sampleEntry2.Options.get? "source" = some "host1" ∧
      sampleEntry2.Options.get? "template" = some templateName ∧
      (originName, origin) ∈ sampleLibrary.Catalog.Origins.entries ∧
      origin.Sources.get? "host1" ≠ none ∧
      sampleLibrary.Config.Origins.get? originName = some originConfig ∧
      originConfig.Templates.get? templateName = some template ∧
      (template.SplitPattern ≠ "" → ∃ value, sampleEntry2.Options.get? "filter" = some value) :=
  ⟨by decide, by decide,
    GetCollectionTemplate_entry_keys sampleLibrary "host1" sampleResult (by decide)
      sampleEntry2 (by decide)⟩

/-! ## Captured values -/

theorem GoSet.mem_Add (s : GoSet) (x v : String) :
    v ∈ (s.Add x).items ↔ v ∈ s.items ∨ v = x := by
  unfold GoSet.Add
  by_cases h : x ∈ s.items
  · simp only [h, if_true]
    constructor
    · exact Or.inl
    · rintro (h1 | rfl)
      · exact h1
      · exact h
  · simp only [h, if_false, List.mem_append, List.mem_singleton]

theorem GoSet.nodup_Add (s : GoSet) (x : String) (h : s.items.Nodup) :
    (s.Add x).items.Nodup := by
  unfold GoSet.Add
  by_cases hx : x ∈ s.items
  · simpa only [hx, if_true] using h
  · simp only [hx, if_false]
    exact List.Nodup.append h (List.nodup_singleton x) (by
      intro a ha hb
      rw [List.mem_singleton] at hb
      exact hx (hb ▸ ha))

theorem scanMetrics_cons_two (r : Regexp) (metricName : String) (rest : List String)
    (s : GoSet) (w v : String) (h : r.FindStringSubmatch metricName = [w, v]) :
    scanMetrics (some r) (metricName :: rest) s = scanMetrics (some r) rest (s.Add v) := by
  simp only [scanMetrics, h]

theorem scanMetrics_cons_other (r : Regexp) (metricName : String) (rest : List String)
    (s : GoSet) (h : (r.FindStringSubmatch metricName).length ≠ 2) :
    scanMetrics (some r) (metricName :: rest) s = scanMetrics (some r) rest s := by
  simp only [scanMetrics]
  split
  · rename_i heq
    rw [heq] at h
    exact absurd rfl h
  · rfl

theorem contributes_iff (r : Regexp) (metricName value : String) :
    Contributes r metricName value ↔ ∃ w, r.FindStringSubmatch metricName = [w, value] := by
  unfold Contributes
  constructor
  · rintro ⟨hlen, hval⟩
    rcases hf : r.FindStringSubmatch metricName with _ | ⟨a, _ | ⟨b, _ | ⟨c, l⟩⟩⟩
    · rw [hf] at hlen
      simp at hlen
    · rw [hf] at hlen
      simp at hlen
    · rw [hf] at hval
      simp at hval
      exact ⟨a, by rw [hval]⟩
    · rw [hf] at hlen
      simp at hlen
  · rintro ⟨w, hw⟩
    rw [hw]
    simp

theorem scanMetrics_spec (r : Regexp) : ∀ (metrics : List String) (s s' : GoSet),
    scanMetrics (some r) metrics s = .returned s' →
    (∀ v, v ∈ s'.items ↔ v ∈ s.items ∨ ∃ m ∈ metrics, Contributes r m v) ∧
    (s.items.Nodup → s'.items.Nodup)
  | [], s, s', h => by
    simp only [scanMetrics, Outcome.returned.injEq] at h
    subst h
    simp
  | metricName :: rest, s, s', h => by
    by_cases hlen : (r.FindStringSubmatch metricName).length = 2
    · obtain ⟨w, v, hwv⟩ : ∃ w v, r.FindStringSubmatch metricName = [w, v] := by
        rcases hf : r.FindStringSubmatch metricName with _ | ⟨a, _ | ⟨b, _ | ⟨c, l⟩⟩⟩
        · rw [hf] at hlen
          simp at hlen
        · rw [hf] at hlen
          simp at hlen
        · exact ⟨a, b, rfl⟩
        · rw [hf] at hlen
          simp at hlen
      rw [scanMetrics_cons_two r metricName rest s w v hwv] at h
      obtain ⟨hmem, hnd⟩ := scanMetrics_spec r rest (s.Add v) s' h
      refine ⟨fun x => ?_, fun hs => hnd (GoSet.nodup_Add s v hs)⟩
      rw [hmem x, GoSet.mem_Add]
      constructor
      · rintro ((h1 | rfl) | ⟨m, hm, hc⟩)
        · exact Or.inl h1
        · exact Or.inr ⟨metricName, List.mem_cons_self _ _,
            (contributes_iff r metricName x).2 ⟨w, hwv⟩⟩
        · exact Or.inr ⟨m, List.mem_cons_of_mem _ hm, hc⟩
      · rintro (h1 | ⟨m, hm, hc⟩)
        · exact Or.inl (Or.inl h1)
        · rcases List.mem_cons.1 hm with rfl | hm'
          · obtain ⟨w', hw'⟩ := (contributes_iff r m x).1 hc
            rw [hwv] at hw'
            simp only [List.cons.injEq, and_true] at hw'
            exact Or.inl (Or.inr hw'.2.symm)
          · exact Or.inr ⟨m, hm', hc⟩
    · rw [scanMetrics_cons_other r metricName rest s hlen] at h
      obtain ⟨hmem, hnd⟩ := scanMetrics_spec r rest s s' h
      refine ⟨fun x => ?_, hnd⟩
      rw [hmem x]
      constructor
      · rintro (h1 | ⟨m, hm, hc⟩)
        · exact Or.inl h1
        · exact Or.inr ⟨m, List.mem_cons_of_mem _ hm, hc⟩
      · rintro (h1 | ⟨m, hm, hc⟩)
        · exact Or.inl h1
        · rcases List.mem_cons.1 hm with rfl | hm'
          · exact absurd hc.1 hlen
          · exact Or.inr ⟨m, hm', hc⟩

theorem map_filter_split (originName name templateName : String)
    (template : TemplateConfig) {items : List String} {new : List CollectionEntry}
    (h : List.Forall₂
      (fun itemName e =>
        ∃ count, e = splitEntry originName name templateName template itemName count)
      items new) :
    new.map (fun e => e.Options.get? "filter") = items.map some := by
  induction h with
  | nil => rfl
  | cons hr _ ih =>
    obtain ⟨count, rfl⟩ := hr
    simp only [List.map_cons, ih, splitEntry_options]
    simp [splitOptionsSpec]

/-- C14: for a template with a split pattern and compiled matcher, the scan of the source's metric
names returns a set without repetition whose members are exactly the values contributed by a
metric name whose submatch slice has exactly two elements (the value being the second element);
the template then appends exactly one entry per member, in ascending order of the values; so when
no metric name has a two-element submatch slice the template appends no entry, and a returned
collection holds no entry of that origin and template. -/
theorem processTemplate_split_captures (library : Library)
    (originName name templateName : String) (originConfig : OriginConfig)
    (template : TemplateConfig) (r : Regexp) (metrics : List String)
    (hoc : library.Config.Origins.get? originName = some originConfig)
    (ht : originConfig.Templates.get? templateName = some template)
    (hsp : template.SplitPattern ≠ "") (hre : template.SplitRegexp = some r)
    (hm : metricNames library originName name = Outcome.returned metrics) :
    ∃ splitSet, scanMetrics (some r) metrics GoSet.New = Outcome.returned splitSet ∧
      (∀ v, v ∈ splitSet.StringSlice ↔ ∃ m ∈ metrics, Contributes r m v) ∧
      splitSet.StringSlice.Nodup ∧
      (∀ st, ∃ new,
        processTemplate library originName name templateName st
          = Outcome.returned (st.1 ++ new, st.2 + new.length) ∧
        new.map (fun e => e.Options.get? "filter")
          = (sortStrings splitSet.StringSlice).map some ∧
        ((∀ m ∈ metrics, (r.FindStringSubmatch m).length ≠ 2) → new = [])) ∧
      (∀ c, GetCollectionTemplate library name = Outcome.returned (some c, none) →
        (∀ m ∈ metrics, (r.FindStringSubmatch m).length ≠ 2) →
        ∀ e ∈ c.Entries, ¬ (e.Options.get? "origin" = some originName ∧
          e.Options.get? "template" = some templateName)) := by
  obtain ⟨splitSet, hscan⟩ := scanMetrics_returns r metrics GoSet.New
  obtain ⟨hmem, hnd⟩ := scanMetrics_spec r metrics GoSet.New splitSet hscan
  have hmem' : ∀ v, v ∈ splitSet.StringSlice ↔ ∃ m ∈ metrics, Contributes r m v := by
    intro v
    have := hmem v
    simpa [GoSet.New, GoSet.StringSlice] using this
  have hempty : (∀ m ∈ metrics, (r.FindStringSubmatch m).length ≠ 2) →
      splitSet.StringSlice = [] := by
    intro hno
    apply List.eq_nil_iff_forall_not_mem.2
    intro v hv
    obtain ⟨m, hmm, hc⟩ := (hmem' v).1 hv
    exact hno m hmm hc.1
  refine ⟨splitSet, hscan, hmem', hnd (by simp [GoSet.New]), ?_, ?_⟩
  · intro st
    obtain ⟨new, hnew, hall⟩ := splitLoop_spec originName name templateName template
      (sortStrings splitSet.StringSlice) st
    refine ⟨new, ?_, map_filter_split originName name templateName template hall, ?_⟩
    · unfold processTemplate
      simp only [hoc, ht, ne_eq, hsp, not_false_eq_true, if_true, hm, hre, hscan, hnew]
    · intro hno
      have hnil : sortStrings splitSet.StringSlice = [] := by
        rw [hempty hno]
        rfl
      rw [hnil] at hall
      cases hall
      rfl
  · intro c hc hno e he hpin
    obtain ⟨originName', origin, originConfig', templateName', template', _, _, hoc', ht',
      hcase⟩ := (GetCollectionTemplate_emitted library name c none hc e he).provenance
    rcases hcase with ⟨hsp', count, rfl⟩ | ⟨_, metrics', splitSet', itemName, count, hm', hscan',
      hitem, rfl⟩
    · have h1 : originName' = originName := by
        simpa [plainEntry_options, plainOptionsSpec] using hpin.1
      have h2 : templateName' = templateName := by
        simpa [plainEntry_options, plainOptionsSpec] using hpin.2
      subst h1 h2
      rw [hoc] at hoc'
      cases hoc'
      rw [ht] at ht'
      cases ht'
      exact hsp hsp'
    · have h1 : originName' = originName := by
        simpa [splitEntry_options, splitOptionsSpec] using hpin.1
      have h2 : templateName' = templateName := by
        simpa [splitEntry_options, splitOptionsSpec] using hpin.2
      subst h1 h2
      rw [hoc] at hoc'
      cases hoc'
      rw [ht] at ht'
      cases ht'
      rw [hm] at hm'
      cases hm'
      rw [hre, hscan] at hscan'
      cases hscan'
      rw [hempty hno] at hitem
      simp at hitem

/-- C14 at an example: the split template `t1` of the sample library, whose matcher captures the
digit of the metric names `cpu.0.u`, `cpu.1.u` and `cpu.0.s`. -/
theorem processTemplate_split_captures_witness :
    ∃ splitSet, scanMetrics (some digitRegexp) ["cpu.0.u", "cpu.1.u", "cpu.0.s"] GoSet.New
        = Outcome.returned splitSet ∧
      (∀ v, v ∈ splitSet.StringSlice ↔
        ∃ m ∈ ["cpu.0.u", "cpu.1.u", "cpu.0.s"], Contributes digitRegexp m v) ∧
      splitSet.StringSlice.Nodup ∧
      (∀ st, ∃ new,
        processTemplate sampleLibrary "o1" "host1" "t1" st
          = Outcome.returned (st.1 ++ new, st.2 + new.length) ∧
        new.map (fun e => e.Options.get? "filter")
          = (sortStrings splitSet.StringSlice).map some ∧
        ((∀ m ∈ ["cpu.0.u", "cpu.1.u", "cpu.0.s"],
            (digitRegexp.FindStringSubmatch m).length ≠ 2) → new = [])) ∧
      (∀ c, GetCollectionTemplate sampleLibrary "host1" = Outcome.returned (some c, none) →
        (∀ m ∈ ["cpu.0.u", "cpu.1.u", "cpu.0.s"],
            (digitRegexp.FindStringSubmatch m).length ≠ 2) →
        ∀ e ∈ c.Entries, ¬ (e.Options.get? "origin" = some "o1" ∧
          e.Options.get? "template" = some "t1")) :=
  processTemplate_split_captures sampleLibrary "o1" "host1" "t1"
    ⟨⟨[("t1", ⟨"cpu", some digitRegexp, some ⟨[("title", "CPU %s")]⟩⟩),
       ("t0", ⟨"", none, some ⟨[("title", "Host")]⟩⟩)]⟩⟩
    ⟨"cpu", some digitRegexp, some ⟨[("title", "CPU %s")]⟩⟩ digitRegexp
    ["cpu.0.u", "cpu.1.u", "cpu.0.s"] rfl rfl (by decide) rfl rfl

/-! ## The title of a split entry -/

theorem replaceFirstChars_first (new : List Char) : ∀ (pre post : List Char),
    ¬ ['%', 's'] <:+: pre →
    replaceFirstChars ['%', 's'] new (pre ++ '%' :: 's' :: post) = pre ++ new ++ post
  | [], post, _ => by
    simp [replaceFirstChars, List.isPrefixOf]
  | c :: pre, post, h => by
    have hrest : ¬ ['%', 's'] <:+: pre := fun hin => h (List.infix_cons hin)
    have hnp : List.isPrefixOf ['%', 's'] (c :: (pre ++ '%' :: 's' :: post)) = false := by
      cases pre with
      | nil =>
        simp [List.isPrefixOf]
      | cons d pre' =>
        by_cases hc : c = '%'
        · by_cases hd : d = 's'
          · subst hc hd
            exact absurd (List.prefix_append ['%', 's'] pre').isInfix h
          · simp only [List.cons_append, List.isPrefixOf, Bool.and_eq_false_imp,
              beq_iff_eq, Bool.and_true, beq_eq_false_iff_ne, ne_eq]
            intro _ hsd
            exact hd hsd.symm
        · simp only [List.cons_append, List.isPrefixOf, Bool.and_eq_false_imp,
            beq_iff_eq, Bool.and_true, beq_eq_false_iff_ne, ne_eq]
          intro hcc
          exact absurd hcc.symm hc
    have ih := replaceFirstChars_first new pre post hrest
    show replaceFirstChars ['%', 's'] new (c :: (pre ++ '%' :: 's' :: post))
      = c :: pre ++ new ++ post
    rw [replaceFirstChars]
    simp only [hnp, Bool.false_eq_true, if_false, ih, List.cons_append, List.append_assoc]

theorem replaceFirstChars_absent (new : List Char) : ∀ (t : List Char),
    ¬ ['%', 's'] <:+: t → replaceFirstChars ['%', 's'] new t = t
  | [], _ => by simp [replaceFirstChars]
  | c :: t, h => by
    have hrest : ¬ ['%', 's'] <:+: t := fun hin => h (List.infix_cons hin)
    have hnp : List.isPrefixOf ['%', 's'] (c :: t) = false := by
      cases hp : List.isPrefixOf ['%', 's'] (c :: t) with
      | false => rfl
      | true => exact absurd (List.isPrefixOf_iff_prefix.1 hp).isInfix h
    simp only [replaceFirstChars, hnp, Bool.false_eq_true, if_false,
      replaceFirstChars_absent new t hrest]

/-- C15: in the title of an entry emitted for a split template only the first `%s` is
substituted: when the default title reads `pre ++ "%s" ++ post` with no `%s` inside `pre`, the
entry's title is `pre`, the captured value, then `post` verbatim (whatever further `%s` it
holds); a default title without `%s` is kept; and when the defaults have no `title` key the entry
has none either. -/
theorem GetCollectionTemplate_title_first_only (library : Library) (name : String)
    (c : Collection)
    (h : GetCollectionTemplate library name = Outcome.returned (some c, none))
    (e : CollectionEntry) (he : e ∈ c.Entries) :
    ∃ originName templateName originConfig template,
      library.Config.Origins.get? originName = some originConfig ∧
      originConfig.Templates.get? templateName = some template ∧
      e.Options.get? "origin" = some originName ∧
      e.Options.get? "template" = some templateName ∧
      (template.SplitPattern ≠ "" →
        ∃ value, e.Options.get? "filter" = some value ∧
          (∀ pre post : List Char,
            (defaultOptions template).get? "title" = some (String.mk (pre ++ '%' :: 's' :: post)) →
            ¬ ['%', 's'] <:+: pre →
            e.Options.get? "title" = some (String.mk (pre ++ value.data ++ post))) ∧
          (∀ title, (defaultOptions template).get? "title" = some title →
            ¬ ['%', 's'] <:+: title.data → e.Options.get? "title" = some title) ∧
          ((defaultOptions template).get? "title" = none → e.Options.get? "title" = none)) := by
  obtain ⟨originName, templateName, originConfig, template, hoc, ht, hcase⟩ :=
    (GetCollectionTemplate_emitted library name c none h e he).cases
  refine ⟨originName, templateName, originConfig, template, hoc, ht, ?_⟩
  rcases hcase with ⟨hsp, count, rfl⟩ | ⟨hsp, itemName, count, rfl⟩
  · refine ⟨?_, ?_, fun hne => absurd hsp hne⟩
    · simp [plainEntry_options, plainOptionsSpec]
    · simp [plainEntry_options, plainOptionsSpec]
  · refine ⟨?_, ?_, fun _ => ⟨itemName, ?_, ?_, ?_, ?_⟩⟩
    · simp [splitEntry_options, splitOptionsSpec]
    · simp [splitEntry_options, splitOptionsSpec]
    · simp [splitEntry_options, splitOptionsSpec]
    · intro pre post htitle hpre
      rw [splitEntry_options]
      simp only [splitOptionsSpec, htitle, Option.map_some']
      have hr : Replace1 (String.mk (pre ++ '%' :: 's' :: post)) "%s" itemName
          = String.mk (pre ++ itemName.data ++ post) := by
        unfold Replace1
        exact congrArg String.mk (replaceFirstChars_first itemName.data pre post hpre)
      rw [hr]
      simp
    · intro title htitle hno
      rw [splitEntry_options]
      simp only [splitOptionsSpec, htitle, Option.map_some']
      have hr : Replace1 title "%s" itemName = title := by
        unfold Replace1
        exact String.ext (replaceFirstChars_absent itemName.data title.data hno)
      rw [hr]
      simp
    · intro hnone
      rw [splitEntry_options]
      simp [splitOptionsSpec, hnone]

/-- C15 at an example: the default title `CPU %s of %s` yields the title `CPU 0 of %s` for the
captured value `0`. -/
theorem GetCollectionTemplate_title_first_only_witness :
    GetCollectionTemplate doubleTitleLibrary "host1"
      = Outcome.returned (some doubleTitleResult, none) ∧
    doubleTitleEntry ∈ doubleTitleResult.Entries ∧
    doubleTitleEntry.Options.get? "title" = some "CPU 0 of %s" ∧
    ∃ originName templateName originConfig template,
      doubleTitleLibrary.Config.Origins.get? originName = some originConfig ∧
      originConfig.Templates.get? templateName = some template ∧
      doubleTitleEntry.Options.get? "origin" = some originName ∧
      doubleTitleEntry.Options.get? "template" = some templateName ∧
      (template.SplitPattern ≠ "" →
        ∃ value, doubleTitleEntry.Options.get? "filter" = some value ∧
          (∀ pre post : List Char,
            (defaultOptions template).get? "title" = some (String.mk (pre ++ '%' :: 's' :: post)) →
            ¬ ['%', 's'] <:+: pre →
            doubleTitleEntry.Options.get? "title"
              = some (String.mk (pre ++ value.data ++ post))) ∧
          (∀ title, (defaultOptions template).get? "title" = some title →
            ¬ ['%', 's'] <:+: title.data →
            doubleTitleEntry.Options.get? "title" = some title) ∧
          ((defaultOptions template).get? "title" = none →
            doubleTitleEntry.Options.get? "title" = none)) :=
  ⟨by decide, by decide, by decide,
    GetCollectionTemplate_title_first_only doubleTitleLibrary "host1" doubleTitleResult
      (by decide) doubleTitleEntry (by decide)⟩

/-! ## Independence of the metric enumeration order -/

theorem lookup_forall₂ {V W : Type} {S : V → W → Prop} (k : String) :
    ∀ {l₁ : List (String × V)} {l₂ : List (String × W)},
      List.Forall₂ (fun p q => p.1 = q.1 ∧ S p.2 q.2) l₁ l₂ →
      (l₁.lookup k = none ∧ l₂.lookup k = none) ∨
        ∃ a b, l₁.lookup k = some a ∧ l₂.lookup k = some b ∧ S a b
  | _, _, List.Forall₂.nil => Or.inl ⟨rfl, rfl⟩
  | (a₁, v) :: _, (a₂, w) :: _, List.Forall₂.cons hpq hrest => by
    obtain ⟨hkey, hS⟩ := hpq
    simp only at hkey hS
    subst hkey
    rw [GoMap.lookup_cons_ite, GoMap.lookup_cons_ite]
    by_cases hk : k = a₁
    · simp only [hk, if_true]
      exact Or.inr ⟨v, w, rfl, rfl, hS⟩
    · simp only [hk, if_false]
      exact lookup_forall₂ k hrest

theorem scanMetrics_nil_regexp (metrics : List String) (s : GoSet) :
    scanMetrics none metrics s = if metrics = [] then .returned s else .panic := by
  cases metrics with
  | nil => rfl
  | cons m rest => simp [scanMetrics]

theorem scanMetrics_perm (re : Option Regexp) {ms₁ ms₂ : List String} (h : ms₁.Perm ms₂) :
    (scanMetrics re ms₁ GoSet.New = .panic ∧ scanMetrics re ms₂ GoSet.New = .panic) ∨
    ∃ s₁ s₂, scanMetrics re ms₁ GoSet.New = .returned s₁ ∧
      scanMetrics re ms₂ GoSet.New = .returned s₂ ∧
      s₁.StringSlice.Perm s₂.StringSlice := by
  cases re with
  | none =>
    rw [scanMetrics_nil_regexp, scanMetrics_nil_regexp]
    by_cases h1 : ms₁ = []
    · have h2 : ms₂ = [] := by
        subst h1
        exact List.Perm.nil_eq h ▸ rfl
      rw [if_pos h1, if_pos h2]
      exact Or.inr ⟨_, _, rfl, rfl, List.Perm.refl _⟩
    · have h2 : ¬ ms₂ = [] := by
        intro h2
        subst h2
        exact h1 (List.Perm.eq_nil h)
      rw [if_neg h1, if_neg h2]
      exact Or.inl ⟨rfl, rfl⟩
  | some r =>
    obtain ⟨s₁, hs₁⟩ := scanMetrics_returns r ms₁ GoSet.New
    obtain ⟨s₂, hs₂⟩ := scanMetrics_returns r ms₂ GoSet.New
    obtain ⟨hmem₁, hnd₁⟩ := scanMetrics_spec r ms₁ GoSet.New s₁ hs₁
    obtain ⟨hmem₂, hnd₂⟩ := scanMetrics_spec r ms₂ GoSet.New s₂ hs₂
    refine Or.inr ⟨s₁, s₂, hs₁, hs₂, ?_⟩
    refine (List.perm_ext_iff_of_nodup (hnd₁ (by simp [GoSet.New]))
      (hnd₂ (by simp [GoSet.New]))).2 ?_
    intro v
    show v ∈ s₁.items ↔ v ∈ s₂.items
    rw [hmem₁ v, hmem₂ v]
    constructor
    · rintro (h1 | ⟨m, hm, hc⟩)
      · exact Or.inl h1
      · exact Or.inr ⟨m, h.mem_iff.1 hm, hc⟩
    · rintro (h1 | ⟨m, hm, hc⟩)
      · exact Or.inl h1
      · exact Or.inr ⟨m, h.mem_iff.2 hm, hc⟩

theorem metricNames_perm {l₁ l₂ : Library} (h : SameUpToMetricOrder l₁ l₂)
    (originName name : String) :
    (metricNames l₁ originName name = .panic ∧ metricNames l₂ originName name = .panic) ∨
    ∃ ms₁ ms₂, metricNames l₁ originName name = .returned ms₁ ∧
      metricNames l₂ originName name = .returned ms₂ ∧ ms₁.Perm ms₂ := by
  rcases lookup_forall₂ originName h.2 with ⟨h1, h2⟩ | ⟨o₁, o₂, h1, h2, hS⟩
  · left
    constructor
    · simp only [metricNames, GoMap.get?, h1]
    · simp only [metricNames, GoMap.get?, h2]
  · rcases lookup_forall₂ name hS with ⟨h3, h4⟩ | ⟨s₁, s₂, h3, h4, hM⟩
    · left
      constructor
      · simp only [metricNames, GoMap.get?, h1, h3]
      · simp only [metricNames, GoMap.get?, h2, h4]
    · right
      refine ⟨s₁.Metrics.keys, s₂.Metrics.keys, ?_, ?_, hM⟩
      · simp only [metricNames, GoMap.get?, h1, h3]
      · simp only [metricNames, GoMap.get?, h2, h4]

theorem processTemplate_perm {l₁ l₂ : Library} (h : SameUpToMetricOrder l₁ l₂)
    (originName name templateName : String) (st : List CollectionEntry × Nat) :
    processTemplate l₁ originName name templateName st
      = processTemplate l₂ originName name templateName st := by
  unfold processTemplate
  rw [h.1]
  cases hoc : l₂.Config.Origins.get? originName with
  | none => rfl
  | some originConfig =>
    simp only []
    cases ht : originConfig.Templates.get? templateName with
    | none => rfl
    | some template =>
      simp only []
      by_cases hsp : template.SplitPattern = ""
      · simp only [hsp, ne_eq, not_true_eq_false, if_false]
      · simp only [ne_eq, hsp, not_false_eq_true, if_true]
        rcases metricNames_perm h originName name with ⟨h1, h2⟩ | ⟨ms₁, ms₂, h1, h2, hp⟩
        · rw [h1, h2]
        · rw [h1, h2]
          simp only []
          rcases scanMetrics_perm template.SplitRegexp hp with ⟨h3, h4⟩ | ⟨s₁, s₂, h3, h4, hs⟩
          · rw [h3, h4]
          · rw [h3, h4]
            simp only [sortStrings_perm hs]

theorem templateLoop_perm {l₁ l₂ : Library} (h : SameUpToMetricOrder l₁ l₂)
    (originName name : String) :
    ∀ (templates : List String) (st : List CollectionEntry × Nat),
      templateLoop l₁ originName name templates st
        = templateLoop l₂ originName name templates st
  | [], _ => rfl
  | templateName :: rest, st => by
    simp only [templateLoop, processTemplate_perm h originName name templateName st]
    cases processTemplate l₂ originName name templateName st with
    | panic => rfl
    | returned st' => exact templateLoop_perm h originName name rest st'

theorem processOrigin_perm {l₁ l₂ : Library} (h : SameUpToMetricOrder l₁ l₂)
    (name originName : String) (o₁ o₂ : Origin) (hS : SameSources o₁ o₂) (st : SynthState) :
    processOrigin l₁ name originName o₁ st = processOrigin l₂ name originName o₂ st := by
  rcases lookup_forall₂ name hS with ⟨h1, h2⟩ | ⟨s₁, s₂, h1, h2, _⟩
  · simp only [processOrigin, GoMap.get?, h1, h2]
  · simp only [processOrigin, GoMap.get?, h1, h2, h.1, templateLoop_perm h]

theorem originLoop_perm {l₁ l₂ : Library} (h : SameUpToMetricOrder l₁ l₂) (name : String) :
    ∀ {os₁ os₂ : List (String × Origin)},
      List.Forall₂ (fun p q => p.1 = q.1 ∧ SameSources p.2 q.2) os₁ os₂ →
      ∀ st, originLoop l₁ name os₁ st = originLoop l₂ name os₂ st
  | _, _, List.Forall₂.nil, _ => rfl
  | p :: _, q :: _, List.Forall₂.cons hpq hrest, st => by
    obtain ⟨hkey, hS⟩ := hpq
    simp only [originLoop, hkey, processOrigin_perm h name q.1 p.2 q.2 hS st]
    cases processOrigin l₂ name q.1 q.2 st with
    | panic => rfl
    | returned st' => exact originLoop_perm h name hrest st'

/-- C17: the result does not depend on the order in which the metrics of a source are
enumerated: two libraries that differ only in that order yield the same outcome of the call, in
particular the same entry sequence. -/
theorem GetCollectionTemplate_metric_order (l₁ l₂ : Library) (name : String)
    (h : SameUpToMetricOrder l₁ l₂) :
    GetCollectionTemplate l₁ name = GetCollectionTemplate l₂ name := by
  unfold GetCollectionTemplate
  rw [originLoop_perm h name h.2]

/-- C17 at an example: the sample library and the same library with the metrics of `host1`
enumerated in another order both return the sample result. -/
theorem GetCollectionTemplate_metric_order_witness :
    SameUpToMetricOrder sampleLibrary sampleLibraryReordered ∧
    GetCollectionTemplate sampleLibraryReordered "host1"
      = Outcome.returned (some sampleResult, none) ∧
    GetCollectionTemplate sampleLibrary "host1"
      = GetCollectionTemplate sampleLibraryReordered "host1" :=
  have hrel : SameUpToMetricOrder sampleLibrary sampleLibraryReordered :=
    ⟨rfl, List.Forall₂.cons ⟨rfl, List.Forall₂.cons ⟨rfl, by
      show List.Perm ["cpu.0.u", "cpu.1.u", "cpu.0.s"] ["cpu.0.s", "cpu.1.u", "cpu.0.u"]
      decide⟩ List.Forall₂.nil⟩ List.Forall₂.nil⟩
  ⟨hrel, by decide, GetCollectionTemplate_metric_order sampleLibrary sampleLibraryReordered
    "host1" hrel⟩

/-! ## FilterCollection on the heap -/

theorem Heap.entriesAt_cons (h : Heap) (p : Nat) (ps : List Nat) (es : List CollectionEntry)
    (hes : h.entriesAt (p :: ps) = some es) :
    ∃ e rest, h.entryAt p = some e ∧ h.entriesAt ps = some rest ∧ es = e :: rest := by
  simp only [Heap.entriesAt] at hes
  cases he : h.entryAt p with
  | none => simp [he] at hes
  | some e =>
    cases hr : h.entriesAt ps with
    | none => simp [he, hr] at hes
    | some rest =>
      simp only [he, hr, Option.some.injEq] at hes
      exact ⟨e, rest, rfl, rfl, hes.symm⟩

theorem OnHeap.filterLoop_spec (toLower : String → String) (filter : String) (h : Heap) :
    ∀ (ps : List Nat) (es : List CollectionEntry) (acc : List Nat),
      h.entriesAt ps = some es →
      ∃ qs, OnHeap.filterLoop toLower filter h ps acc = .returned (acc ++ qs) ∧
        qs.Sublist ps ∧ h.entriesAt qs = some (es.filter (keepEntry toLower filter))
  | [], es, acc, hes => by
    simp only [Heap.entriesAt, Option.some.injEq] at hes
    subst hes
    exact ⟨[], by simp [OnHeap.filterLoop], List.Sublist.refl _, rfl⟩
  | p :: ps, es, acc, hes => by
    obtain ⟨e, rest, he, hrest, rfl⟩ := Heap.entriesAt_cons h p ps es hes
    by_cases hk : keepEntry toLower filter e = true
    · obtain ⟨qs, hqs, hsub, hderef⟩ :=
        OnHeap.filterLoop_spec toLower filter h ps rest (acc ++ [p]) hrest
      refine ⟨p :: qs, ?_, hsub.cons₂ p, ?_⟩
      · simp only [OnHeap.filterLoop, he, hk, if_true, hqs, List.append_assoc,
          List.singleton_append]
      · simp only [Heap.entriesAt, he, hderef, List.filter_cons, hk, if_true]
    · obtain ⟨qs, hqs, hsub, hderef⟩ :=
        OnHeap.filterLoop_spec toLower filter h ps rest acc hrest
      have hk' : keepEntry toLower filter e = false := by simpa using hk
      refine ⟨qs, ?_, hsub.cons p, ?_⟩
      · simp only [OnHeap.filterLoop, he, hk', Bool.false_eq_true, if_false, hqs]
      · simp only [hderef, List.filter_cons, hk', Bool.false_eq_true, if_false]

theorem Heap.entriesAt_congr (h h' : Heap) (hm : h'.maps = h.maps) (he : h'.entries = h.entries) :
    ∀ ps : List Nat, h'.entriesAt ps = h.entriesAt ps
  | [] => rfl
  | p :: ps => by
    have hp : h'.entryAt p = h.entryAt p := by
      simp only [Heap.entryAt, Heap.optionsOf, hm, he]
    simp only [Heap.entriesAt, hp, Heap.entriesAt_congr h h' hm he ps]

/-- C11: for every collection object and every non-empty filter string, FilterCollection returns
a pointer to a new object whose `Name` and other item metadata, `Parent` and `Children` equal
those of the input, and it leaves the input unchanged: the input object, every entry object and
every option map are the same after the call as before, and the entries of the result are entry
pointers of the input (no entry is copied).  The value of the result is the result of the value
model. -/
theorem FilterCollection_frame (toLower : String → String) (h : Heap) (collection : Nat)
    (s : String) (cell : CollectionCell) (c : Collection) (hs : s ≠ "")
    (hcell : h.collections[collection]? = some cell) (hc : h.collectionOf cell = some c) :
    ∃ h' p r rv,
      OnHeap.FilterCollection toLower h collection s = Outcome.returned (h', some p) ∧
      h'.collections[p]? = some r ∧
      r.Item = cell.Item ∧ r.Item.Name = c.Item.Name ∧
      r.Parent = cell.Parent ∧ r.Children = cell.Children ∧
      p ≠ collection ∧
      h'.collections[collection]? = some cell ∧ h'.collectionOf cell = some c ∧
      h'.maps = h.maps ∧ h'.entries = h.entries ∧
      (∀ q, q < h.collections.length → h'.collections[q]? = h.collections[q]?) ∧
      r.Entries.Sublist cell.Entries ∧
      FilterCollection toLower c s = some rv ∧ h'.collectionOf r = some rv := by
  have hlt : collection < h.collections.length := by
    by_contra hge
    rw [List.getElem?_eq_none (by omega)] at hcell
    cases hcell
  obtain ⟨hes, hitem, hparent, hchildren⟩ :
      h.entriesAt cell.Entries = some c.Entries ∧ c.Item = cell.Item ∧
      c.Parent = cell.Parent ∧ c.Children = cell.Children := by
    unfold Heap.collectionOf at hc
    cases hd : h.entriesAt cell.Entries with
    | none => simp [hd] at hc
    | some entries =>
      simp only [hd, Option.some.injEq] at hc
      subst hc
      exact ⟨rfl, rfl, rfl, rfl⟩
  obtain ⟨qs, hqs, hsub, hderef⟩ :=
    OnHeap.filterLoop_spec toLower s h cell.Entries c.Entries [] hes
  have hframe : ∀ q, q < h.collections.length →
      (h.collections ++ [{ cell with Entries := qs }])[q]? = h.collections[q]? :=
    fun q hq => List.getElem?_append_left hq
  have hE : ∀ ps, Heap.entriesAt
      { h with collections := h.collections ++ [{ cell with Entries := qs }] } ps
        = h.entriesAt ps := Heap.entriesAt_congr h _ rfl rfl
  refine ⟨{ h with collections := h.collections ++ [{ cell with Entries := qs }] },
    h.collections.length, { cell with Entries := qs },
    { c with Entries := c.Entries.filter (keepEntry toLower s) }, ?_, ?_, rfl, ?_, rfl, rfl,
    ?_, ?_, ?_, rfl, rfl, hframe, hsub, FilterCollection_eq toLower c s hs, ?_⟩
  · simp only [OnHeap.FilterCollection, hs, if_false, hcell, hqs, List.nil_append,
      Heap.newCollection]
  · simp
  · simp [hitem]
  · omega
  · rw [hframe collection hlt, hcell]
  · unfold Heap.collectionOf
    rw [hE]
    simp only [hes, ← hitem, ← hparent, ← hchildren]
  · unfold Heap.collectionOf
    rw [hE]
    simp only [hderef, hitem, hparent, hchildren]

/-- C11 at an example: the sample collection stored in the sample heap, filtered by `"cpu"`. -/
theorem FilterCollection_frame_witness :
    "cpu" ≠ "" ∧
    sampleHeap.collections[0]? = some ⟨⟨"", "host1"⟩, [0, 1, 2], none, []⟩ ∧
    sampleHeap.collectionOf ⟨⟨"", "host1"⟩, [0, 1, 2], none, []⟩ = some sampleCollection ∧
    ∃ h' p r rv,
      OnHeap.FilterCollection asciiLower sampleHeap 0 "cpu" = Outcome.returned (h', some p) ∧
      h'.collections[p]? = some r ∧
      r.Item = (⟨⟨"", "host1"⟩, [0, 1, 2], none, []⟩ : CollectionCell).Item ∧
      r.Item.Name = sampleCollection.Item.Name ∧
      r.Parent = (⟨⟨"", "host1"⟩, [0, 1, 2], none, []⟩ : CollectionCell).Parent ∧
      r.Children = (⟨⟨"", "host1"⟩, [0, 1, 2], none, []⟩ : CollectionCell).Children ∧
      p ≠ 0 ∧
      h'.collections[0]? = some ⟨⟨"", "host1"⟩, [0, 1, 2], none, []⟩ ∧
      h'.collectionOf ⟨⟨"", "host1"⟩, [0, 1, 2], none, []⟩ = some sampleCollection ∧
      h'.maps = sampleHeap.maps ∧ h'.entries = sampleHeap.entries ∧
      (∀ q, q < sampleHeap.collections.length →
        h'.collections[q]? = sampleHeap.collections[q]?) ∧
      r.Entries.Sublist (⟨⟨"", "host1"⟩, [0, 1, 2], none, []⟩ : CollectionCell).Entries ∧
      FilterCollection asciiLower sampleCollection "cpu" = some rv ∧
      h'.collectionOf r = some rv :=
  ⟨by decide, by decide, by decide,
    FilterCollection_frame asciiLower sampleHeap 0 "cpu" ⟨⟨"", "host1"⟩, [0, 1, 2], none, []⟩
      sampleCollection (by decide) (by decide) (by decide)⟩

/-! ## GetCollectionTemplate on the heap -/

theorem getElem?_append_length {α : Type} (l : List α) (x : α) :
    (l ++ [x])[l.length]? = some x := by
  simp

theorem set_append_length {α : Type} (l : List α) (x y : α) :
    (l ++ [x]).set l.length y = l ++ [y] := by
  induction l with
  | nil => rfl
  | cons a l ih => simp [ih]

theorem Heap.setOption_last (h : Heap) (m : GoMap String) (k v : String) :
    Heap.setOption { h with maps := h.maps ++ [m] } h.maps.length k v
      = { h with maps := h.maps ++ [m.set k v] } := by
  simp only [Heap.setOption, getElem?_append_length, set_append_length]

theorem Heap.index_last (h : Heap) (m : GoMap String) (k : String) :
    Heap.index { h with maps := h.maps ++ [m] } h.maps.length k = m.index k := by
  simp only [Heap.index, getElem?_append_length]

theorem onHeap_freshOptions_sim (h : Heap) (template : OnHeap.TemplateConfig)
    (hv : ∀ a, template.Options = some a → a < h.maps.length) :
    OnHeap.freshOptions h template
      = .returned ({ h with maps := h.maps ++ [freshOptions (template.deref h)] },
          h.maps.length) := by
  unfold OnHeap.freshOptions freshOptions OnHeap.TemplateConfig.deref Heap.makeMap
  cases hopt : template.Options with
  | none => rfl
  | some src =>
    have hlt := hv src hopt
    obtain ⟨d, hd⟩ : ∃ d, h.maps[src]? = some d :=
      ⟨h.maps[src], List.getElem?_eq_getElem hlt⟩
    have hd' : (h.maps ++ [GoMap.empty])[src]? = some d := by
      rw [List.getElem?_append_left hlt, hd]
    simp only [OnHeap.Clone, hd', hd, set_append_length]

theorem onHeap_splitEntry_sim (h : Heap) (originName name templateName : String)
    (template : OnHeap.TemplateConfig) (itemName : String) (count : Nat)
    (hv : ∀ a, template.Options = some a → a < h.maps.length) :
    OnHeap.splitEntry h originName name templateName template itemName count
      = .returned (h.storeEntry
          (splitEntry originName name templateName (template.deref h) itemName count),
          h.entries.length) := by
  unfold OnHeap.splitEntry
  rw [onHeap_freshOptions_sim h template hv]
  simp only [Heap.setOption_last, Heap.index_last]
  unfold splitEntry Heap.storeEntry Heap.newEntry
  simp only []
  split <;> simp_all [Heap.setOption_last]

theorem onHeap_plainEntry_sim (h : Heap) (originName name templateName : String)
    (template : OnHeap.TemplateConfig) (count : Nat)
    (hv : ∀ a, template.Options = some a → a < h.maps.length) :
    OnHeap.plainEntry h originName name templateName template count
      = .returned (h.storeEntry
          (plainEntry originName name templateName (template.deref h) count),
          h.entries.length) := by
  unfold OnHeap.plainEntry
  rw [onHeap_freshOptions_sim h template hv]
  simp only [Heap.setOption_last]
  rfl

theorem Heap.foldl_storeEntry_maps (es : List CollectionEntry) : ∀ h : Heap,
    (es.foldl Heap.storeEntry h).maps = h.maps ++ es.map (fun e => e.Options) := by
  induction es with
  | nil => intro h; simp
  | cons e es ih =>
    intro h
    simp only [List.foldl_cons, ih, Heap.storeEntry, List.map_cons, List.append_assoc,
      List.singleton_append]

theorem Heap.foldl_storeEntry_entries (es : List CollectionEntry) : ∀ h : Heap,
    (es.foldl Heap.storeEntry h).entries
      = h.entries ++ (es.zip (List.range' h.maps.length es.length)).map
          (fun p => { ID := p.1.ID, Options := some p.2 }) := by
  induction es with
  | nil => intro h; simp
  | cons e es ih =>
    intro h
    simp only [List.foldl_cons, ih, Heap.storeEntry, List.length_append, List.length_singleton,
      List.length_cons, List.range'_succ, List.zip_cons_cons, List.map_cons, List.append_assoc,
      List.singleton_append, List.length_nil, Nat.zero_add]

theorem Heap.foldl_storeEntry_collections (es : List CollectionEntry) : ∀ h : Heap,
    (es.foldl Heap.storeEntry h).collections = h.collections := by
  induction es with
  | nil => intro h; rfl
  | cons e es ih =>
    intro h
    simp only [List.foldl_cons, ih, Heap.storeEntry]

theorem Heap.foldl_storeEntry_entries_length (es : List CollectionEntry) (h : Heap) :
    (es.foldl Heap.storeEntry h).entries.length = h.entries.length + es.length := by
  simp [Heap.foldl_storeEntry_entries]

theorem Heap.storeEntries_append (h : Heap) (es : List CollectionEntry) (e : CollectionEntry)
    (count : Nat) :
    h.storeEntries (es ++ [e]) (count + 1)
      = { heap := (h.storeEntries es count).heap.storeEntry e,
          Entries := (h.storeEntries es count).Entries
            ++ [(h.storeEntries es count).heap.entries.length],
          count := count + 1 } := by
  simp only [Heap.storeEntries, List.foldl_append, List.foldl_cons, List.foldl_nil,
    List.length_append, List.length_singleton, List.range'_concat,
    Heap.foldl_storeEntry_entries_length, Nat.one_mul]

theorem deref_of_prefix (h₀ h : Heap) (template : OnHeap.TemplateConfig)
    (hp : h₀.maps <+: h.maps) (hv : ∀ a, template.Options = some a → a < h₀.maps.length) :
    template.deref h = template.deref h₀ := by
  unfold OnHeap.TemplateConfig.deref
  cases hopt : template.Options with
  | none => rfl
  | some a =>
    obtain ⟨t, ht⟩ := hp
    have hlt := hv a hopt
    simp only [← ht, List.getElem?_append_left hlt]

theorem storeEntries_prefix (h : Heap) (es : List CollectionEntry) (count : Nat) :
    h.maps <+: (h.storeEntries es count).heap.maps := by
  simp only [Heap.storeEntries, Heap.foldl_storeEntry_maps]
  exact List.prefix_append _ _

theorem onHeap_splitLoop_sim (h : Heap) (originName name templateName : String)
    (template : OnHeap.TemplateConfig)
    (hv : ∀ a, template.Options = some a → a < h.maps.length) :
    ∀ (items : List String) (es : List CollectionEntry) (count : Nat),
      OnHeap.splitLoop originName name templateName template items (h.storeEntries es count)
        = .returned (h.storeEntries
            (splitLoop originName name templateName (template.deref h) items (es, count)).1
            (splitLoop originName name templateName (template.deref h) items (es, count)).2)
  | [], es, count => rfl
  | itemName :: rest, es, count => by
    have hp := storeEntries_prefix h es count
    have hv' : ∀ a, template.Options = some a →
        a < (h.storeEntries es count).heap.maps.length :=
      fun a ha => lt_of_lt_of_le (hv a ha) hp.length_le
    rw [OnHeap.splitLoop, onHeap_splitEntry_sim _ _ _ _ _ _ _ hv',
      deref_of_prefix h _ template hp hv]
    simp only []
    have hcount : (h.storeEntries es count).count = count := rfl
    rw [hcount, ← Heap.storeEntries_append]
    exact onHeap_splitLoop_sim h originName name templateName template hv rest _ _

theorem lookup_map_snd {V W : Type} (f : V → W) (k : String) : ∀ l : List (String × V),
    (l.map (fun p => (p.1, f p.2))).lookup k = (l.lookup k).map f
  | [] => rfl
  | (a, b) :: rest => by
    simp only [List.map_cons, GoMap.lookup_cons_ite, lookup_map_snd f k rest]
    by_cases h : k = a
    · simp only [h, if_true, Option.map_some']
    · simp only [h, if_false]

theorem deref_origins_get? (h : Heap) (library : OnHeap.Library) (originName : String) :
    (library.deref h).Config.Origins.get? originName
      = (library.Config.Origins.get? originName).map (fun oc =>
          ⟨⟨oc.Templates.entries.map (fun t => (t.1, t.2.deref h))⟩⟩) := by
  simp only [OnHeap.Library.deref, GoMap.get?]
  exact lookup_map_snd
    (fun oc : OnHeap.OriginConfig =>
      (⟨⟨oc.Templates.entries.map (fun t => (t.1, t.2.deref h))⟩⟩ : OriginConfig))
    originName library.Config.Origins.entries

theorem metricNames_deref (h : Heap) (library : OnHeap.Library) (originName name : String) :
    metricNames (library.deref h) originName name
      = OnHeap.metricNames library originName name := rfl

theorem onHeap_processTemplate_sim (h : Heap) (library : OnHeap.Library)
    (hclosed : OnHeap.Closed h library) (originName name templateName : String)
    (es : List CollectionEntry) (count : Nat) :
    OnHeap.processTemplate library originName name templateName (h.storeEntries es count)
      = h.reifyLoop (processTemplate (library.deref h) originName name templateName
          (es, count)) := by
  unfold OnHeap.processTemplate processTemplate
  rw [deref_origins_get?, metricNames_deref]
  cases hoc : library.Config.Origins.get? originName with
  | none => rfl
  | some originConfig =>
    simp only [Option.map_some', GoMap.get?, lookup_map_snd]
    cases ht : originConfig.Templates.entries.lookup templateName with
    | none => rfl
    | some template =>
      have hv : ∀ a, template.Options = some a → a < h.maps.length :=
        hclosed _ (GoMap.get?_mem _ _ _ hoc) _ (GoMap.lookup_mem _ _ _ ht)
      have hp := storeEntries_prefix h es count
      have hv' : ∀ a, template.Options = some a →
          a < (h.storeEntries es count).heap.maps.length :=
        fun a ha => lt_of_lt_of_le (hv a ha) hp.length_le
      simp only [Option.map_some']
      have hsp : (template.deref h).SplitPattern = template.SplitPattern := rfl
      have hre : (template.deref h).SplitRegexp = template.SplitRegexp := rfl
      rw [hsp, hre]
      by_cases hsplit : template.SplitPattern = ""
      · simp only [hsplit, ne_eq, not_true_eq_false, if_false]
        rw [onHeap_plainEntry_sim _ _ _ _ _ _ hv', deref_of_prefix h _ template hp hv]
        simp only [Heap.reifyLoop]
        have hcount : (h.storeEntries es count).count = count := rfl
        rw [hcount, ← Heap.storeEntries_append]
      · simp only [ne_eq, hsplit, not_false_eq_true, if_true]
        cases OnHeap.metricNames library originName name with
        | panic => rfl
        | returned metrics =>
          simp only []
          cases scanMetrics template.SplitRegexp metrics GoSet.New with
          | panic => rfl
          | returned splitSet =>
            simp only [Heap.reifyLoop]
            exact onHeap_splitLoop_sim h originName name templateName template hv _ es count

theorem onHeap_templateLoop_sim (h : Heap) (library : OnHeap.Library)
    (hclosed : OnHeap.Closed h library) (originName name : String) :
    ∀ (templates : List String) (es : List CollectionEntry) (count : Nat),
      OnHeap.templateLoop library originName name templates (h.storeEntries es count)
        = h.reifyLoop (templateLoop (library.deref h) originName name templates (es, count))
  | [], es, count => rfl
  | templateName :: rest, es, count => by
    rw [OnHeap.templateLoop, templateLoop,
      onHeap_processTemplate_sim h library hclosed originName name templateName es count]
    cases processTemplate (library.deref h) originName name templateName (es, count) with
    | panic => rfl
    | returned r =>
      simp only [Heap.reifyLoop]
      exact onHeap_templateLoop_sim h library hclosed originName name rest r.1 r.2

theorem onHeap_processOrigin_sim (h : Heap) (library : OnHeap.Library)
    (hclosed : OnHeap.Closed h library) (name originName : String) (origin : Origin)
    (st : SynthState) :
    OnHeap.processOrigin library name originName origin
        { templates := st.templates, loop := h.storeEntries st.Entries st.count,
          found := st.found }
      = h.reifyState (processOrigin (library.deref h) name originName origin st) := by
  unfold OnHeap.processOrigin processOrigin
  rw [deref_origins_get?]
  cases origin.Sources.get? name with
  | none => rfl
  | some source =>
    simp only []
    cases hoc : library.Config.Origins.get? originName with
    | none => rfl
    | some originConfig =>
      have hkeys : (⟨originConfig.Templates.entries.map
          (fun t => (t.1, t.2.deref h))⟩ : GoMap TemplateConfig).keys
            = originConfig.Templates.keys := by
        simp [GoMap.keys, List.map_map, Function.comp_def]
      simp only [Option.map_some', hkeys]
      rw [onHeap_templateLoop_sim h library hclosed originName name]
      cases templateLoop (library.deref h) originName name
          (sortStrings (st.templates ++ originConfig.Templates.keys)) (st.Entries, st.count) with
      | panic => rfl
      | returned r => rfl

theorem onHeap_originLoop_sim (h : Heap) (library : OnHeap.Library)
    (hclosed : OnHeap.Closed h library) (name : String) :
    ∀ (origins : List (String × Origin)) (st : SynthState),
      OnHeap.originLoop library name origins
          { templates := st.templates, loop := h.storeEntries st.Entries st.count,
            found := st.found }
        = h.reifyState (originLoop (library.deref h) name origins st)
  | [], st => rfl
  | o :: rest, st => by
    rw [OnHeap.originLoop, originLoop,
      onHeap_processOrigin_sim h library hclosed name o.1 o.2 st]
    cases processOrigin (library.deref h) name o.1 o.2 st with
    | panic => rfl
    | returned st' =>
      simp only [Heap.reifyState]
      exact onHeap_originLoop_sim h library hclosed name rest st'

theorem onHeap_GetCollectionTemplate_sim (h : Heap) (library : OnHeap.Library)
    (hclosed : OnHeap.Closed h library) (name : String) :
    OnHeap.GetCollectionTemplate h library name
      = h.reifyResult (GetCollectionTemplate (library.deref h) name) := by
  unfold OnHeap.GetCollectionTemplate GetCollectionTemplate
  have hinit : OnHeap.SynthState.mk [] (OnHeap.LoopState.mk h [] 0) false
      = OnHeap.SynthState.mk initialState.templates
          (h.storeEntries initialState.Entries initialState.count) initialState.found := rfl
  have hcat : library.Catalog.Origins.entries = (library.deref h).Catalog.Origins.entries := rfl
  rw [hinit, hcat, onHeap_originLoop_sim h library hclosed name]
  show _ = h.reifyResult (match originLoop (library.deref h) name
    (library.deref h).Catalog.Origins.entries initialState with
    | .panic => .panic
    | .returned st => _)
  cases originLoop (library.deref h) name (library.deref h).Catalog.Origins.entries
      initialState with
  | panic => rfl
  | returned st =>
    simp only [Heap.reifyState]
    cases hf : st.found with
    | true =>
      simp [Heap.reifyResult]
      exact ⟨rfl, rfl⟩
    | false => simp [Heap.reifyResult]

theorem deref_of_agree (h₀ h : Heap) (template : OnHeap.TemplateConfig)
    (hagree : ∀ b, b < h₀.maps.length → h.maps[b]? = h₀.maps[b]?)
    (hv : ∀ a, template.Options = some a → a < h₀.maps.length) :
    template.deref h = template.deref h₀ := by
  unfold OnHeap.TemplateConfig.deref
  cases hopt : template.Options with
  | none => rfl
  | some a => simp only [hagree a (hv a hopt)]

theorem library_deref_of_agree (h₀ h : Heap) (library : OnHeap.Library)
    (hclosed : OnHeap.Closed h₀ library)
    (hagree : ∀ b, b < h₀.maps.length → h.maps[b]? = h₀.maps[b]?) :
    library.deref h = library.deref h₀ := by
  unfold OnHeap.Library.deref
  congr 3
  apply List.map_congr_left
  intro oc hoc
  congr 3
  apply List.map_congr_left
  intro t ht
  rw [deref_of_agree h₀ h t.2 hagree (hclosed oc hoc t ht)]

theorem storeEntries_refs (es : List CollectionEntry) : ∀ h : Heap,
    List.Forall₂
      (fun q a => ∃ cell, (es.foldl Heap.storeEntry h).entries[q]? = some cell ∧
        cell.Options = some a)
      (List.range' h.entries.length es.length) (List.range' h.maps.length es.length) := by
  induction es with
  | nil => intro h; exact List.Forall₂.nil
  | cons e es ih =>
    intro h
    simp only [List.length_cons, List.range'_succ, List.foldl_cons]
    refine List.Forall₂.cons ⟨{ ID := e.ID, Options := some h.maps.length }, ?_, rfl⟩ ?_
    · rw [Heap.foldl_storeEntry_entries]
      have hlt : h.entries.length < (h.storeEntry e).entries.length := by
        simp [Heap.storeEntry]
      rw [List.getElem?_append_left hlt]
      simp [Heap.storeEntry]
    · have := ih (h.storeEntry e)
      simpa [Heap.storeEntry] using this

theorem storeEntries_entriesAt (es : List CollectionEntry) : ∀ h : Heap,
    (es.foldl Heap.storeEntry h).entriesAt (List.range' h.entries.length es.length)
      = some es := by
  induction es with
  | nil => intro h; rfl
  | cons e es ih =>
    intro h
    simp only [List.length_cons, List.range'_succ, List.foldl_cons, Heap.entriesAt]
    have hrest := ih (h.storeEntry e)
    have hlen : (h.storeEntry e).entries.length = h.entries.length + 1 := by
      simp [Heap.storeEntry]
    rw [hlen] at hrest
    have hcell : (es.foldl Heap.storeEntry (h.storeEntry e)).entries[h.entries.length]?
        = some { ID := e.ID, Options := some h.maps.length } := by
      rw [Heap.foldl_storeEntry_entries]
      have hlt : h.entries.length < (h.storeEntry e).entries.length := by omega
      rw [List.getElem?_append_left hlt]
      simp [Heap.storeEntry]
    have hmap : (es.foldl Heap.storeEntry (h.storeEntry e)).maps[h.maps.length]?
        = some e.Options := by
      rw [Heap.foldl_storeEntry_maps]
      have hlt : h.maps.length < (h.storeEntry e).maps.length := by
        simp [Heap.storeEntry]
      rw [List.getElem?_append_left hlt]
      simp [Heap.storeEntry]
    simp only [Heap.entryAt, hcell, Heap.optionsOf, hmap, hrest]

theorem Heap.setOption_maps_ne (h : Heap) (a b : Nat) (k v : String) (hne : b ≠ a) :
    (h.setOption a k v).maps[b]? = h.maps[b]? := by
  unfold Heap.setOption
  cases h.maps[a]? with
  | none => rfl
  | some m => exact List.getElem?_set_ne (Ne.symm hne)

/-- C13: each entry of a returned collection owns an independent copy of its options.  On a heap
that holds the default option sets of the registry, the call returns a collection whose entry
objects refer to pairwise different map objects, all of them new; every map object that existed
before the call, the default option sets among them, is the same after the call as before; and
changing an option of one entry afterwards changes neither the option map of another entry nor
any default option set.  The value of the returned collection is the result of the value
model. -/
theorem GetCollectionTemplate_independent_options (h : Heap) (library : OnHeap.Library)
    (name : String) (h' : Heap) (p : Nat) (hclosed : OnHeap.Closed h library)
    (hrun : OnHeap.GetCollectionTemplate h library name = Outcome.returned (h', some p, none)) :
    ∃ r refs c,
      h'.collections[p]? = some r ∧
      GetCollectionTemplate (library.deref h) name = Outcome.returned (some c, none) ∧
      h'.collectionOf r = some c ∧
      List.Forall₂
        (fun q a => ∃ cell, h'.entries[q]? = some cell ∧ cell.Options = some a)
        r.Entries refs ∧
      refs.Nodup ∧
      (∀ a ∈ refs, h.maps.length ≤ a ∧ a < h'.maps.length) ∧
      (∀ b, b < h.maps.length → h'.maps[b]? = h.maps[b]?) ∧
      library.deref h' = library.deref h ∧
      (∀ a ∈ refs, ∀ k v,
        (∀ b ∈ refs, b ≠ a → (h'.setOption a k v).maps[b]? = h'.maps[b]?) ∧
        (∀ b, b < h.maps.length → (h'.setOption a k v).maps[b]? = h.maps[b]?) ∧
        library.deref (h'.setOption a k v) = library.deref h) := by
  rw [onHeap_GetCollectionTemplate_sim h library hclosed name] at hrun
  cases hv : GetCollectionTemplate (library.deref h) name with
  | panic =>
    rw [hv] at hrun
    simp [Heap.reifyResult] at hrun
  | returned res =>
    obtain ⟨oc, err⟩ := res
    cases oc with
    | none =>
      rw [hv] at hrun
      simp [Heap.reifyResult] at hrun
    | some c =>
      rw [hv] at hrun
      simp only [Heap.reifyResult, Heap.newCollection, Heap.storeEntries,
        Outcome.returned.injEq, Prod.mk.injEq, Option.some.injEq] at hrun
      obtain ⟨hh', hp, herr⟩ := hrun
      subst herr
      have hmaps : h'.maps = h.maps ++ c.Entries.map (fun e => e.Options) := by
        rw [← hh']
        exact Heap.foldl_storeEntry_maps c.Entries h
      have hentries : h'.entries = (c.Entries.foldl Heap.storeEntry h).entries := by
        rw [← hh']
      have hcolls : h'.collections = h.collections ++
          [{ Item := c.Item, Entries := List.range' h.entries.length c.Entries.length,
             Parent := c.Parent, Children := c.Children }] := by
        rw [← hh']
        simp only [Heap.foldl_storeEntry_collections]
      have hagree : ∀ b, b < h.maps.length → h'.maps[b]? = h.maps[b]? := by
        intro b hb
        rw [hmaps, List.getElem?_append_left hb]
      have hbound : ∀ a ∈ List.range' h.maps.length c.Entries.length,
          h.maps.length ≤ a ∧ a < h'.maps.length := by
        intro a ha
        rw [List.mem_range'_1] at ha
        rw [hmaps, List.length_append, List.length_map]
        exact ha
      refine ⟨CollectionCell.mk c.Item (List.range' h.entries.length c.Entries.length)
          c.Parent c.Children,
        List.range' h.maps.length c.Entries.length, c, ?_, rfl, ?_, ?_,
        List.nodup_range' _ _, hbound, hagree,
        library_deref_of_agree h h' library hclosed hagree, ?_⟩
      · rw [hcolls, ← hp, Heap.foldl_storeEntry_collections]
        exact getElem?_append_length _ _
      · unfold Heap.collectionOf
        have hE := Heap.entriesAt_congr (c.Entries.foldl Heap.storeEntry h) h'
          (by rw [← hh']) (by rw [← hh'])
        rw [hE, storeEntries_entriesAt c.Entries h]
      · rw [hentries]
        exact storeEntries_refs c.Entries h
      · intro a ha k v
        have hge := (hbound a ha).1
        have hagree' : ∀ b, b < h.maps.length → (h'.setOption a k v).maps[b]? = h.maps[b]? := by
          intro b hb
          rw [Heap.setOption_maps_ne h' a b k v (by omega), hagree b hb]
        exact ⟨fun b _ hne => Heap.setOption_maps_ne h' a b k v hne, hagree',
          library_deref_of_agree h _ library hclosed hagree'⟩

/-- C13 at an example: the sample registry held in `registryHeap`; the call returns three entries
whose option maps are the new map objects 2, 3 and 4. -/
theorem GetCollectionTemplate_independent_options_witness :
    OnHeap.Closed registryHeap sampleHeapLibrary ∧
    ∃ h', OnHeap.GetCollectionTemplate registryHeap sampleHeapLibrary "host1"
        = Outcome.returned (h', some 0, none) ∧
      h'.entries = [⟨"unnamed0", some 2⟩, ⟨"unnamed1", some 3⟩, ⟨"unnamed2", some 4⟩] ∧
      ∃ r refs c,
        h'.collections[0]? = some r ∧
        GetCollectionTemplate (sampleHeapLibrary.deref registryHeap) "host1"
          = Outcome.returned (some c, none) ∧
        h'.collectionOf r = some c ∧
        List.Forall₂
          (fun q a => ∃ cell, h'.entries[q]? = some cell ∧ cell.Options = some a)
          r.Entries refs ∧
        refs.Nodup ∧
        (∀ a ∈ refs, registryHeap.maps.length ≤ a ∧ a < h'.maps.length) ∧
        (∀ b, b < registryHeap.maps.length → h'.maps[b]? = registryHeap.maps[b]?) ∧
        sampleHeapLibrary.deref h' = sampleHeapLibrary.deref registryHeap ∧
        (∀ a ∈ refs, ∀ k v,
          (∀ b ∈ refs, b ≠ a → (h'.setOption a k v).maps[b]? = h'.maps[b]?) ∧
          (∀ b, b < registryHeap.maps.length →
            (h'.setOption a k v).maps[b]? = registryHeap.maps[b]?) ∧
          sampleHeapLibrary.deref (h'.setOption a k v)
            = sampleHeapLibrary.deref registryHeap) :=
  have hclosed : OnHeap.Closed registryHeap sampleHeapLibrary := by
    intro oc hoc t ht a ha
    simp only [sampleHeapLibrary, List.mem_singleton] at hoc
    subst hoc
    simp only [List.mem_cons, List.mem_singleton, List.not_mem_nil, or_false] at ht
    rcases ht with rfl | rfl
    · simp only [Option.some.injEq] at ha
      subst ha
      decide
    · simp only [Option.some.injEq] at ha
      subst ha
      decide
  ⟨hclosed, _, rfl, rfl,
    GetCollectionTemplate_independent_options registryHeap sampleHeapLibrary "host1" _ 0
      hclosed rfl⟩

end Facette
